import Mathlib

/-!
Verification of the `go-shutil` file-copy library (`shutil.go`, plus the
build-tagged `clonefile` helper) against its natural-language specification.

The Go code is shallowly embedded over an explicit filesystem model:

* A filesystem `FS` is an association list from path strings to `Node`s.
  Looking a path up returns the first matching entry; updating a path conses
  a new entry in front (so the old entry is shadowed).  Each node carries an
  inode number (`ino`, modelling the dev+inode identity `os.SameFile`
  compares), a file type, a `data` string (file contents for regular files,
  the target string for symlinks) and permission `mode` bits.  Go's
  `FileInfo.Mode()` packs the type and the permissions into one word; the
  model keeps them in separate fields (`ftype` / `mode`), which loses no
  information.
* Symlink targets are treated as absolute path strings (a flat namespace);
  `filepath.Join`/`filepath.Base` are modelled on plain strings.
* Path resolution (`os.Stat`, `os.Open`, `os.Create`, `os.Chmod` follow
  symlinks) is fuel-bounded like the kernel's: at most `maxLinkDepth`
  symlink hops, after which the query fails with `tooManyLinks` (ELOOP).
* Fallible OS primitives return `Except OSErr`; the library-level error
  values of `shutil.go` (`SameFileError`, `SpecialFileError`, the
  `fmt.Errorf` size-mismatch error, and forwarded OS errors) are the
  constructors of `Err`.
* `CopyFile` additionally returns the trace of data-level effects it
  performed (`Ev`), which lets us state which operations an invocation did
  and did not attempt (symlink creation, byte reads/writes, clone ioctl).
* Opening a FIFO would block forever (there is never a peer in a
  single-threaded run); the model returns the distinguished error
  `pipeBlocked` for it.  No claim depends on this corner.
-/

set_option autoImplicit false

namespace Shutil

/-- The type of a filesystem entry, as distinguished by the mode bits the
Go code inspects (`ModeSymlink`, `ModeNamedPipe`, `IsDir`); everything else
is `regular`. -/
inductive FType where
  | regular
  | symlink
  | pipe
  | dir
deriving DecidableEq, Repr

/-- A filesystem node: inode identity, type, payload (`data` is the content
of a regular file, the target string of a symlink, and unused otherwise)
and permission bits. -/
structure Node where
  ino : Nat
  ftype : FType
  data : String
  mode : Nat
deriving DecidableEq, Repr

/-- `FileInfo.Size()`: for regular files the content length; for symlinks
the length of the target string (as on Linux). -/
def Node.size (n : Node) : Nat := n.data.length

/-- A filesystem: association list from paths to nodes, first match wins. -/
abbrev FS := List (String × Node)

/-- Look up the node stored at a path (no symlink following). -/
def lookupFS (fs : FS) (p : String) : Option Node :=
  match fs with
  | [] => none
  | (q, n) :: rest => if q = p then some n else lookupFS rest p

/-- Update/create the node at a path by consing (shadowing any old entry). -/
def setFS (fs : FS) (p : String) (n : Node) : FS := (p, n) :: fs

/-- A fresh inode number: strictly larger than every inode in the filesystem. -/
def freshIno (fs : FS) : Nat :=
  (fs.foldr (fun e a => max e.2.ino a) 0) + 1

/-- OS-level errors surfaced by the modelled syscalls. -/
inductive OSErr where
  /-- ENOENT for the given path. `os.IsNotExist` recognises exactly this. -/
  | notExist (p : String)
  /-- ELOOP: too many levels of symbolic links. -/
  | tooManyLinks (p : String)
  /-- EISDIR: the path is a directory where a file was required. -/
  | isDir (p : String)
  /-- EEXIST: `os.Symlink` refuses to overwrite an existing path. -/
  | existsErr (p : String)
  /-- EINVAL: `os.Readlink` on a non-symlink. -/
  | invalArg (p : String)
  /-- Opening a FIFO blocks in a single-threaded run; modelled as an error. -/
  | pipeBlocked (p : String)
deriving DecidableEq, Repr

/-- `os.IsNotExist` on the modelled errors. -/
def isNotExistErr (e : OSErr) : Bool :=
  match e with
  | .notExist _ => true
  | _ => false

/-- The kernel's bound on symlink hops during path resolution. -/
def maxLinkDepth : Nat := 40

/-- Follow symlinks from `p`, with fuel; returns the final (non-symlink)
path together with its node. -/
def resolve (fs : FS) : Nat → String → Except OSErr (String × Node)
  | 0, p => .error (.tooManyLinks p)
  | fuel + 1, p =>
    match lookupFS fs p with
    | none => .error (.notExist p)
    | some n =>
      if n.ftype = .symlink then resolve fs fuel n.data else .ok (p, n)

/-- `os.Stat`: follow symlinks, return the metadata of the final target. -/
def stat (fs : FS) (p : String) : Except OSErr Node :=
  (resolve fs maxLinkDepth p).map (·.2)

/-- `os.Lstat`: metadata of the entry itself, no following. -/
def lstat (fs : FS) (p : String) : Except OSErr Node :=
  match lookupFS fs p with
  | none => .error (.notExist p)
  | some n => .ok n

/-- `os.Readlink`. -/
def readlinkOp (fs : FS) (p : String) : Except OSErr String :=
  match lookupFS fs p with
  | none => .error (.notExist p)
  | some n => if n.ftype = .symlink then .ok n.data else .error (.invalArg p)

/-- `os.Symlink(target, newpath)`: creates `newpath` as a symlink whose
target string is `target`; fails with EEXIST if `newpath` already exists
(even as a dangling symlink). -/
def symlinkOp (fs : FS) (target newpath : String) : Except OSErr FS :=
  match lookupFS fs newpath with
  | some _ => .error (.existsErr newpath)
  | none => .ok (setFS fs newpath ⟨freshIno fs, .symlink, target, 511⟩)

/-- `os.Open(p)` for reading: resolves the path and yields the resolved
path (the inode the returned handle is pinned to) and its node.  Opening a
FIFO read-only blocks until a writer appears; modelled as `pipeBlocked`. -/
def openRead (fs : FS) (p : String) : Except OSErr (String × Node) :=
  match resolve fs maxLinkDepth p with
  | .error e => .error e
  | .ok (q, n) => if n.ftype = .pipe then .error (.pipeBlocked p) else .ok (q, n)

/-- `os.Create(p)` (`O_WRONLY|O_CREATE|O_TRUNC`): resolves the path; an
existing regular file at the end of the chain is truncated in place
(keeping its inode and mode), a dangling end is created fresh with mode
0666, a directory fails with EISDIR, a FIFO blocks (modelled as an error).
Returns the resolved path the handle writes to, and the updated
filesystem. -/
def createOp (fs : FS) (p : String) : Except OSErr (String × FS) :=
  match resolve fs maxLinkDepth p with
  | .ok (q, n) =>
    if n.ftype = .dir then .error (.isDir q)
    else if n.ftype = .pipe then .error (.pipeBlocked q)
    else .ok (q, setFS fs q { n with data := "" })
  | .error (.notExist q) =>
    .ok (q, setFS fs q ⟨freshIno fs, .regular, "", 438⟩)
  | .error e => .error e

/-- Reading every byte from an open handle whose node is `n` (at resolved
path `p`): regular files yield their contents, directories fail with
EISDIR at read time (as `io.Copy` does on Linux). -/
def readAll (n : Node) (p : String) : Except OSErr String :=
  if n.ftype = .dir then .error (.isDir p) else .ok n.data

/-- `os.Chmod(p, m)`: follows symlinks, sets the permission bits of the
final target. -/
def chmodOp (fs : FS) (p : String) (m : Nat) : Except OSErr FS :=
  match resolve fs maxLinkDepth p with
  | .error e => .error e
  | .ok (q, n) => .ok (setFS fs q { n with mode := m })

/-- Library-level error values returned by the shutil functions. -/
inductive Err where
  /-- `SameFileError{src, dst}`. -/
  | sameFile (src dst : String)
  /-- `SpecialFileError{file, fi}`: the named path is a named pipe. -/
  | specialFile (p : String)
  /-- The `fmt.Errorf("%s: %d/%d copied", ...)` size-mismatch error,
  carrying the path, the bytes copied and the expected size. -/
  | sizeMismatch (p : String) (copied expected : Nat)
  /-- Any OS error forwarded unchanged. -/
  | osErr (e : OSErr)
deriving DecidableEq, Repr

/-- Data-level effects a `CopyFile` invocation can perform, for stating
which operations were and were not attempted. -/
inductive Ev where
  /-- The btrfs clone ioctl was attempted on (dst, src) handles. -/
  | cloneAttempt (dst src : String)
  /-- `n` bytes were read from the (resolved) source path. -/
  | readBytes (p : String) (n : Nat)
  /-- The contents of the resolved destination path were (re)written. -/
  | wroteBytes (p : String)
  /-- A new symlink `link` pointing at target string `target` was created. -/
  | madeSymlink (link target : String)
deriving DecidableEq, Repr

/-- `func samefile(src, dst string) bool`: stat both paths (errors are
discarded; `os.SameFile` on a nil `FileInfo` is `false`) and compare
dev+inode identity. -/
def samefile (fs : FS) (src dst : String) : Bool :=
  match stat fs src, stat fs dst with
  | .ok a, .ok b => a.ino == b.ino
  | _, _ => false

/-- `func specialfile(fi os.FileInfo) bool`: the named-pipe mode bit. -/
def specialfile (fi : Node) : Bool := fi.ftype == .pipe

/-- `func IsSymlink(fi os.FileInfo) bool`. -/
def IsSymlink (fi : Node) : Bool := fi.ftype == .symlink

/-- `func clonefile(fdst, fsrc *os.File) (bool, error)` from the
`linux,cgo` build file: issue the `BTRFS_IOC_CLONE` ioctl; a nonzero errno
(given here as `ioctlErrno`) yields `(false, err)`, success `(true, nil)`. -/
def clonefile (ioctlErrno : Option Nat) : Bool × Option Nat :=
  match ioctlErrno with
  | some e => (false, some e)
  | none => (true, none)

/-- Lines 90–110 of `CopyFile`: open `src` for reading, create/truncate
`dst`, stream all bytes through the handles, then compare the byte count
with `expected` (the `srcStat.Size()` recorded earlier).  The read goes
through the open handle, i.e. it sees the node at the resolved source path
after the create/truncate of the destination. -/
def copyData (fs : FS) (src : String) (expected : Nat) (dst : String) :
    Option Err × FS × List Ev :=
  match openRead fs src with
  | .error e => (some (.osErr e), fs, [])
  | .ok (rp, sn) =>
    match createOp fs dst with
    | .error e => (some (.osErr e), fs, [])
    | .ok (q, fs1) =>
      match readAll ((lookupFS fs1 rp).getD sn) src with
      | .error e => (some (.osErr e), fs1, [])
      | .ok c =>
        if c.length = expected then
          (none, setFS fs1 q { ((lookupFS fs1 q).getD sn) with data := c },
            [.readBytes src c.length, .wroteBytes q])
        else
          (some (.sizeMismatch src c.length expected),
            setFS fs1 q { ((lookupFS fs1 q).getD sn) with data := c },
            [.readBytes src c.length, .wroteBytes q])

/-- Lines 79–88 of `CopyFile`: if the (no-follow) source metadata is a
symlink, resolve it one level via `os.Readlink` and re-`os.Stat` the
result; otherwise keep the path and metadata unchanged. -/
def resolveSrcOnce (fs : FS) (src : String) (srcStat : Node) :
    Except OSErr (String × Node) :=
  if IsSymlink srcStat then
    match readlinkOp fs src with
    | .error e => .error e
    | .ok r =>
      match stat fs r with
      | .error e => .error e
      | .ok n => .ok (r, n)
  else .ok (src, srcStat)

/-- Lines 73–110 of `CopyFile`: the symlink shortcut (`!followSymlinks &&
IsSymlink(srcStat)` makes a new symlink via `os.Symlink(src, dst)`), else
one-level source resolution followed by the byte copy. -/
def copyFileLinkOrData (fs : FS) (src dst : String) (follow : Bool)
    (srcStat : Node) : Option Err × FS × List Ev :=
  if !follow && IsSymlink srcStat then
    match symlinkOp fs src dst with
    | .error e => (some (.osErr e), fs, [])
    | .ok fs1 => (none, fs1, [.madeSymlink dst src])
  else
    match resolveSrcOnce fs src srcStat with
    | .error e => (some (.osErr e), fs, [])
    | .ok (s2, st2) => copyData fs s2 st2.size dst

/-- `func CopyFile(src, dst string, followSymlinks bool) error`, also
returning the updated filesystem and the trace of data-level effects. -/
def CopyFile (fs : FS) (src dst : String) (follow : Bool) :
    Option Err × FS × List Ev :=
  if samefile fs src dst then (some (.sameFile src dst), fs, [])
  else
    match lstat fs src with
    | .error e => (some (.osErr e), fs, [])
    | .ok srcStat =>
      if specialfile srcStat then (some (.specialFile src), fs, [])
      else
        match stat fs dst with
        | .error e =>
          if isNotExistErr e then copyFileLinkOrData fs src dst follow srcStat
          else (some (.osErr e), fs, [])
        | .ok dstStat =>
          if specialfile dstStat then (some (.specialFile dst), fs, [])
          else copyFileLinkOrData fs src dst follow srcStat

/-- Outcome of `CopyMode`: success, an error value, or a Go runtime panic
(the embedded code dereferences a nil `FileInfo`). -/
inductive ModeResult where
  | ok (fs : FS)
  | err (e : Err) (fs : FS)
  | panicked
deriving DecidableEq, Repr

/-- `func CopyMode(src, dst string, followSymlinks bool) error`.  Note the
translation of line 139, `srcStat, _ = os.Stat(src)`: the error of the
followed query is discarded; when that query fails, `srcStat` is nil and
the subsequent `srcStat.Mode()` call panics, modelled as `.panicked`. -/
def CopyMode (fs : FS) (src dst : String) (follow : Bool) : ModeResult :=
  match lstat fs src with
  | .error e => .err (.osErr e) fs
  | .ok srcStat =>
    match lstat fs dst with
    | .error e => .err (.osErr e) fs
    | .ok dstStat =>
      if !follow && IsSymlink srcStat && IsSymlink dstStat then .ok fs
      else
        match stat fs src with
        | .error _ => .panicked
        | .ok srcStat2 =>
          match chmodOp fs dst srcStat2.mode with
          | .error e => .err (.osErr e) fs
          | .ok fs1 => .ok fs1

/-- Split a character list on slashes (components may be empty). -/
def splitSlash : List Char → List (List Char)
  | [] => [[]]
  | c :: rest =>
    match splitSlash rest with
    | [] => [[]]
    | h :: t => if c = '/' then [] :: h :: t else (c :: h) :: t

/-- `filepath.Base` on the flat path model: the last nonempty
slash-separated component; `"."` for the empty path, `"/"` when the path
consists only of slashes. -/
def basePath (p : String) : String :=
  if p = "" then "."
  else
    match (splitSlash p.data).filter (fun s => s ≠ []) with
    | [] => "/"
    | parts => String.mk (parts.getLastD [])

/-- `filepath.Join` on the flat path model: concatenation with a slash. -/
def joinPath (a b : String) : String := a ++ "/" ++ b

/-- Outcome of `Copy`: the final destination path with success or an error
value, or a panic propagated out of `CopyMode`. -/
inductive CopyResult where
  | ok (finalDst : String) (fs : FS)
  | err (finalDst : String) (e : Err) (fs : FS)
  | panicked
deriving DecidableEq, Repr

/-- Lines 165–176 of `Copy`: invoke `CopyFile` and then `CopyMode` on the
(already redirected) destination, propagating their errors. -/
def copyRest (fs : FS) (src dst : String) (follow : Bool) : CopyResult :=
  match CopyFile fs src dst follow with
  | (some e, fs1, _) => .err dst e fs1
  | (none, fs1, _) =>
    match CopyMode fs1 src dst follow with
    | .err e fs2 => .err dst e fs2
    | .panicked => .panicked
    | .ok fs2 => .ok dst fs2

/-- `func Copy(src, dst string, followSymlinks bool) (string, error)`:
redirect an existing-directory destination to `dst/basename(src)`, surface
a non-ENOENT stat error, then delegate. -/
def Copy (fs : FS) (src dst : String) (follow : Bool) : CopyResult :=
  match stat fs dst with
  | .ok dstInfo =>
    if dstInfo.ftype = .dir then
      copyRest fs src (joinPath dst (basePath src)) follow
    else copyRest fs src dst follow
  | .error e =>
    if isNotExistErr e then copyRest fs src dst follow
    else .err dst (.osErr e) fs

/-- Reading a file the way a later consumer would (`open` then read all):
used to state what the destination contains after a copy. -/
def contentsOf (fs : FS) (p : String) : Except OSErr String :=
  match openRead fs p with
  | .error e => .error e
  | .ok (rp, n) => readAll n rp

/-- The bytes `CopyFile` is specified to transfer for a given source: the
contents reached from `src` after the same one-level symlink resolution
the code performs. -/
def sourceBytes (fs : FS) (src : String) : Except OSErr String :=
  match lstat fs src with
  | .error e => .error e
  | .ok s =>
    match resolveSrcOnce fs src s with
    | .error e => .error e
    | .ok (s2, _) => contentsOf fs s2

/-! ### Basic lemmas about lookup, fresh inodes and path resolution -/

theorem lookup_set_self (fs : FS) (q : String) (n : Node) :
    lookupFS (setFS fs q n) q = some n := by
  simp [lookupFS, setFS]

theorem lookup_set_ne (fs : FS) {q p : String} (n : Node) (h : q ≠ p) :
    lookupFS (setFS fs q n) p = lookupFS fs p := by
  simp [lookupFS, setFS, h]

theorem lookup_ino_lt_fresh {fs : FS} {p : String} {n : Node}
    (h : lookupFS fs p = some n) : n.ino < freshIno fs := by
  induction fs with
  | nil => simp [lookupFS] at h
  | cons e rest ih =>
    unfold lookupFS at h
    unfold freshIno at ih ⊢
    split at h
    · cases h
      simp only [List.foldr_cons]
      omega
    · have := ih h
      simp only [List.foldr_cons]
      omega

/-- The path at which a resolution stops holds a non-symlink node. -/
theorem resolve_ok_lookup {fs : FS} :
    ∀ {fuel : Nat} {p q : String} {n : Node},
    resolve fs fuel p = .ok (q, n) →
    lookupFS fs q = some n ∧ n.ftype ≠ .symlink := by
  intro fuel
  induction fuel with
  | zero => intro p q n h; simp [resolve] at h
  | succ f ih =>
    intro p q n h
    unfold resolve at h
    split at h
    · exact absurd h (by simp)
    · split at h
      · exact ih h
      · rename_i m hl hm
        cases h
        exact ⟨hl, hm⟩

/-- A resolution that fails with ENOENT names a path with no entry. -/
theorem resolve_notExist_lookup {fs : FS} :
    ∀ {fuel : Nat} {p q : String},
    resolve fs fuel p = .error (.notExist q) → lookupFS fs q = none := by
  intro fuel
  induction fuel with
  | zero => intro p q h; simp [resolve] at h
  | succ f ih =>
    intro p q h
    unfold resolve at h
    split at h
    · rename_i hl
      cases h
      exact hl
    · split at h
      · exact ih h
      · exact absurd h (by simp)

/-- Successful resolutions are stable under extra fuel. -/
theorem resolve_ok_mono {fs : FS} :
    ∀ {fuel : Nat} {p : String} {x : String × Node},
    resolve fs fuel p = .ok x → resolve fs (fuel + 1) p = .ok x := by
  intro fuel
  induction fuel with
  | zero => intro p x h; simp [resolve] at h
  | succ f ih =>
    intro p x h
    unfold resolve at h ⊢
    split at h
    · exact absurd h (by simp)
    · rename_i m hl
      split at h
      · rename_i hm
        rw [if_pos hm]
        exact ih h
      · rename_i hm
        rw [if_neg hm]
        exact h

/-- ENOENT failures are stable under extra fuel. -/
theorem resolve_notExist_mono {fs : FS} :
    ∀ {fuel : Nat} {p q : String},
    resolve fs fuel p = .error (.notExist q) →
    resolve fs (fuel + 1) p = .error (.notExist q) := by
  intro fuel
  induction fuel with
  | zero => intro p q h; simp [resolve] at h
  | succ f ih =>
    intro p q h
    unfold resolve at h ⊢
    split at h
    · exact h
    · rename_i m hl
      split at h
      · rename_i hm
        rw [if_pos hm]
        exact ih h
      · exact absurd h (by simp)

/-- No symlink is stored at `q` (also satisfied when `q` has no entry). -/
def noLink (fs : FS) (q : String) : Prop :=
  ∀ n, lookupFS fs q = some n → n.ftype ≠ .symlink

theorem noLink_set {fs : FS} {q : String} {m : Node}
    (hm : m.ftype ≠ .symlink) (h : noLink fs q) : noLink (setFS fs q m) q := by
  intro n hn
  rw [lookup_set_self] at hn
  cases hn
  exact hm

/-- Updating the node at a non-symlink path `q` does not disturb a
resolution that ends elsewhere. -/
theorem resolve_set_forward {fs : FS} {q : String} {m : Node}
    (hq : noLink fs q) (hm : m.ftype ≠ .symlink) :
    ∀ {fuel : Nat} {p π : String} {n : Node},
    resolve fs fuel p = .ok (π, n) → π ≠ q →
    resolve (setFS fs q m) fuel p = .ok (π, n) := by
  intro fuel
  induction fuel with
  | zero => intro p π n h _; simp [resolve] at h
  | succ f ih =>
    intro p π n h hne
    unfold resolve at h ⊢
    split at h
    · exact absurd h (by simp)
    · rename_i np hl
      by_cases hpq : p = q
      · subst hpq
        have hns := hq np hl
        rw [if_neg hns] at h
        cases h
        exact absurd rfl hne
      · rw [lookup_set_ne fs m (fun hc => hpq hc.symm)]
        simp only [hl]
        split at h
        · rename_i hnp
          rw [if_pos hnp]
          exact ih h hne
        · rename_i hnp
          rw [if_neg hnp]
          exact h

/-- Updating the very node a resolution ends at redirects the resolution to
the new node (which must again not be a symlink). -/
theorem resolve_set_final {fs : FS} {q : String} {m : Node}
    (hm : m.ftype ≠ .symlink) :
    ∀ {fuel : Nat} {p : String} {n : Node},
    resolve fs fuel p = .ok (q, n) →
    resolve (setFS fs q m) fuel p = .ok (q, m) := by
  intro fuel
  induction fuel with
  | zero => intro p n h; simp [resolve] at h
  | succ f ih =>
    intro p n h
    have hql := resolve_ok_lookup h
    unfold resolve at h ⊢
    split at h
    · exact absurd h (by simp)
    · rename_i np hl
      by_cases hpq : p = q
      · subst hpq
        have hnp : np = n := by
          rw [hql.1] at hl
          cases hl
          rfl
        subst hnp
        rw [lookup_set_self]
        simp only []
        rw [if_neg hm]
      · rw [lookup_set_ne fs m (fun hc => hpq hc.symm)]
        simp only [hl]
        split at h
        · rename_i hnp
          rw [if_pos hnp]
          exact ih h
        · rename_i hnp
          simp only [Except.ok.injEq, Prod.mk.injEq] at h
          exact absurd h.1 hpq

/-- Creating a node at the dangling end of a chain completes the
resolution at the new node. -/
theorem resolve_notExist_set {fs : FS} {q : String} {m : Node}
    (hm : m.ftype ≠ .symlink) :
    ∀ {fuel : Nat} {p : String},
    resolve fs fuel p = .error (.notExist q) →
    resolve (setFS fs q m) fuel p = .ok (q, m) := by
  intro fuel
  induction fuel with
  | zero => intro p h; simp [resolve] at h
  | succ f ih =>
    intro p h
    have hqn := resolve_notExist_lookup h
    unfold resolve at h ⊢
    split at h
    · rename_i hl
      simp only [Except.error.injEq, OSErr.notExist.injEq] at h
      subst h
      rw [lookup_set_self]
      simp only []
      rw [if_neg hm]
    · rename_i np hl
      by_cases hpq : p = q
      · subst hpq
        rw [hqn] at hl
        cases hl
      · rw [lookup_set_ne fs m (fun hc => hpq hc.symm)]
        simp only [hl]
        split at h
        · rename_i hnp
          rw [if_pos hnp]
          exact ih h
        · exact absurd h (by simp)

/-- Characterisation of a successful resolution in an updated filesystem in
terms of the base filesystem: either it never touches `q`, or it ends at
`q` and the base resolution either dangled at `q` or ended at `q`'s old
node. -/
theorem resolve_set_to_base {fs : FS} {q : String} {m : Node}
    (hq : noLink fs q) (hm : m.ftype ≠ .symlink) :
    ∀ {fuel : Nat} {p π : String} {n : Node},
    resolve (setFS fs q m) fuel p = .ok (π, n) →
    (π ≠ q ∧ resolve fs fuel p = .ok (π, n)) ∨
    (π = q ∧ n = m ∧
      ((lookupFS fs q = none ∧ resolve fs fuel p = .error (.notExist q)) ∨
       (∃ nq, lookupFS fs q = some nq ∧ resolve fs fuel p = .ok (q, nq)))) := by
  intro fuel
  induction fuel with
  | zero => intro p π n h; simp [resolve] at h
  | succ f ih =>
    intro p π n h
    unfold resolve at h
    by_cases hpq : p = q
    · subst hpq
      rw [lookup_set_self] at h
      simp only [] at h
      rw [if_neg hm] at h
      simp only [Except.ok.injEq, Prod.mk.injEq] at h
      obtain ⟨hπ, hn⟩ := h
      subst hπ
      subst hn
      refine Or.inr ⟨rfl, rfl, ?_⟩
      cases hl : lookupFS fs p with
      | none =>
        exact Or.inl ⟨rfl, by simp [resolve, hl]⟩
      | some nq =>
        refine Or.inr ⟨nq, rfl, ?_⟩
        unfold resolve
        rw [hl]
        simp only []
        rw [if_neg (hq nq hl)]
    · rw [lookup_set_ne fs m (fun hc => hpq hc.symm)] at h
      cases hl : lookupFS fs p with
      | none =>
        rw [hl] at h
        simp only [] at h
        exact absurd h (by simp)
      | some np =>
        rw [hl] at h
        simp only [] at h
        by_cases hnp : np.ftype = .symlink
        · rw [if_pos hnp] at h
          rcases ih h with ⟨hne, hres⟩ | ⟨hpi, hn, hrest⟩
          · refine Or.inl ⟨hne, ?_⟩
            unfold resolve
            rw [hl]
            simp only []
            rw [if_pos hnp]
            exact hres
          · refine Or.inr ⟨hpi, hn, ?_⟩
            rcases hrest with ⟨h1, h2⟩ | ⟨nq, h1, h2⟩
            · refine Or.inl ⟨h1, ?_⟩
              unfold resolve
              rw [hl]
              simp only []
              rw [if_pos hnp]
              exact h2
            · refine Or.inr ⟨nq, h1, ?_⟩
              unfold resolve
              rw [hl]
              simp only []
              rw [if_pos hnp]
              exact h2
        · rw [if_neg hnp] at h
          simp only [Except.ok.injEq, Prod.mk.injEq] at h
          obtain ⟨hπ, hn⟩ := h
          subst hπ
          subst hn
          refine Or.inl ⟨hpq, ?_⟩
          unfold resolve
          rw [hl]
          simp only []
          rw [if_neg hnp]

/-! ### Repeated updates at a single path -/

/-- `SetsAt q fs fsB`: `fsB` arises from `fs` by repeatedly updating the
node stored at path `q` with non-symlink nodes — the shape of every
filesystem state reached during a byte copy whose write target is `q`. -/
inductive SetsAt (q : String) : FS → FS → Prop
  | refl (fs : FS) : SetsAt q fs fs
  | step {fs fsB : FS} (m : Node) :
      SetsAt q fs fsB → m.ftype ≠ .symlink → SetsAt q fs (setFS fsB q m)

theorem SetsAt.lookup_ne {q : String} {fs fsB : FS} (h : SetsAt q fs fsB)
    {p : String} (hp : p ≠ q) : lookupFS fsB p = lookupFS fs p := by
  induction h with
  | refl => rfl
  | step m hs hm ih => rw [lookup_set_ne _ _ (fun hc => hp hc.symm), ih]

theorem SetsAt.noLink_pres {q : String} {fs fsB : FS} (h : SetsAt q fs fsB)
    (hq : noLink fs q) : noLink fsB q := by
  induction h with
  | refl => exact hq
  | step m hs hm ih => exact noLink_set hm ih

theorem SetsAt.trans_set {q : String} {fs fsB : FS} (h : SetsAt q fs fsB)
    {fsC : FS} (h2 : SetsAt q fsB fsC) : SetsAt q fs fsC := by
  induction h2 with
  | refl => exact h
  | step m hs hm ih => exact SetsAt.step m ih hm

theorem SetsAt.eq_of_lookup_none {q : String} {fs fsB : FS}
    (h : SetsAt q fs fsB) (hn : lookupFS fsB q = none) : fsB = fs := by
  cases h with
  | refl => rfl
  | step m hs hm => rw [lookup_set_self] at hn; cases hn

/-- A resolution in the base filesystem that ends away from `q` survives
any number of updates at `q`. -/
theorem SetsAt.resolve_forward {q : String} {fs fsB : FS} (h : SetsAt q fs fsB)
    (hq : noLink fs q) {fuel : Nat} {p π : String} {n : Node}
    (hr : resolve fs fuel p = .ok (π, n)) (hne : π ≠ q) :
    resolve fsB fuel p = .ok (π, n) := by
  induction h with
  | refl => exact hr
  | step m hs hm ih => exact resolve_set_forward (hs.noLink_pres hq) hm ih hne

/-- A resolution in the updated filesystem, transferred back to the base:
either it never ends at `q`, and holds verbatim in the base, or it ends at
`q` and in the base it either dangled at `q` or ended at `q`'s old node. -/
theorem SetsAt.resolve_back {q : String} {fs fsB : FS} (h : SetsAt q fs fsB)
    (hq : noLink fs q) {fuel : Nat} {p π : String} {n : Node}
    (hr : resolve fsB fuel p = .ok (π, n)) :
    (π ≠ q ∧ resolve fs fuel p = .ok (π, n)) ∨
    (π = q ∧
      ((lookupFS fs q = none ∧ resolve fs fuel p = .error (.notExist q)) ∨
       (∃ nq, lookupFS fs q = some nq ∧ resolve fs fuel p = .ok (q, nq)))) := by
  induction h generalizing π n with
  | refl =>
    by_cases hπ : π = q
    · subst hπ
      exact Or.inr ⟨rfl, Or.inr ⟨n, (resolve_ok_lookup hr).1, hr⟩⟩
    · exact Or.inl ⟨hπ, hr⟩
  | step m hs hm ih =>
    rcases resolve_set_to_base (hs.noLink_pres hq) hm hr with
      ⟨hne, hres⟩ | ⟨hπ, _, hrest⟩
    · exact ih hres
    · subst hπ
      rcases hrest with ⟨h1, h2⟩ | ⟨nq, h1, h2⟩
      · have hfs := hs.eq_of_lookup_none h1
        subst hfs
        exact Or.inr ⟨rfl, Or.inl ⟨h1, h2⟩⟩
      · rcases ih h2 with ⟨hne, _⟩ | ⟨_, hrest2⟩
        · exact absurd rfl hne
        · exact Or.inr ⟨rfl, hrest2⟩

/-- A resolution that ends at `q` keeps ending at `q` across updates at
`q`, picking up the current node. -/
theorem SetsAt.resolve_endpoint {q : String} {fs1 fsB : FS}
    (h : SetsAt q fs1 fsB) {fuel : Nat} {p : String} {n1 : Node}
    (hr : resolve fs1 fuel p = .ok (q, n1)) :
    ∃ nf, lookupFS fsB q = some nf ∧ nf.ftype ≠ .symlink ∧
      resolve fsB fuel p = .ok (q, nf) := by
  induction h with
  | refl => exact ⟨n1, (resolve_ok_lookup hr).1, (resolve_ok_lookup hr).2, hr⟩
  | step m hs hm ih =>
    obtain ⟨nf, hl, hns, hres⟩ := ih
    exact ⟨m, lookup_set_self _ _ _, hm, resolve_set_final hm hres⟩

/-! ### Inversion lemmas for the success paths -/

theorem openRead_ok_inv {fs : FS} {p rp : String} {n : Node}
    (h : openRead fs p = .ok (rp, n)) :
    resolve fs maxLinkDepth p = .ok (rp, n) ∧ n.ftype ≠ .pipe := by
  unfold openRead at h
  split at h
  · exact absurd h (by simp)
  · rename_i q m hres
    split at h
    · exact absurd h (by simp)
    · rename_i hnp
      simp only [Except.ok.injEq, Prod.mk.injEq] at h
      obtain ⟨h1, h2⟩ := h
      subst h1
      subst h2
      exact ⟨hres, hnp⟩

theorem readAll_ok_inv {n : Node} {p : String} {c : String}
    (h : readAll n p = .ok c) : n.ftype ≠ .dir ∧ c = n.data := by
  unfold readAll at h
  split at h
  · exact absurd h (by simp)
  · rename_i hnd
    simp only [Except.ok.injEq] at h
    exact ⟨hnd, h.symm⟩

theorem createOp_ok_inv {fs : FS} {p q : String} {fs1 : FS}
    (h : createOp fs p = .ok (q, fs1)) :
    (∃ n, resolve fs maxLinkDepth p = .ok (q, n) ∧ n.ftype = .regular ∧
      fs1 = setFS fs q { n with data := "" }) ∨
    (resolve fs maxLinkDepth p = .error (.notExist q) ∧
      fs1 = setFS fs q ⟨freshIno fs, .regular, "", 438⟩) := by
  unfold createOp at h
  split at h
  · rename_i q2 n hres
    by_cases hd : n.ftype = .dir
    · rw [if_pos hd] at h
      exact absurd h (by simp)
    · rw [if_neg hd] at h
      by_cases hp : n.ftype = .pipe
      · rw [if_pos hp] at h
        exact absurd h (by simp)
      · rw [if_neg hp] at h
        simp only [Except.ok.injEq, Prod.mk.injEq] at h
        obtain ⟨h1, h2⟩ := h
        subst h1
        subst h2
        refine Or.inl ⟨n, hres, ?_, rfl⟩
        have hns := (resolve_ok_lookup hres).2
        cases hft : n.ftype
        · rfl
        · exact absurd hft hns
        · exact absurd hft hp
        · exact absurd hft hd
  · rename_i q2 hres
    simp only [Except.ok.injEq, Prod.mk.injEq] at h
    obtain ⟨h1, h2⟩ := h
    subst h1
    subst h2
    exact Or.inr ⟨hres, rfl⟩
  · exact absurd h (by simp)

theorem symlinkOp_ok_inv {fs : FS} {target newpath : String} {fs1 : FS}
    (h : symlinkOp fs target newpath = .ok fs1) :
    lookupFS fs newpath = none ∧
    fs1 = setFS fs newpath ⟨freshIno fs, .symlink, target, 511⟩ := by
  unfold symlinkOp at h
  split at h
  · exact absurd h (by simp)
  · rename_i hl
    simp only [Except.ok.injEq] at h
    exact ⟨hl, h.symm⟩

theorem resolveSrcOnce_ok_inv {fs : FS} {src : String} {srcStat : Node}
    {s2 : String} {st2 : Node}
    (h : resolveSrcOnce fs src srcStat = .ok (s2, st2)) :
    (IsSymlink srcStat = false ∧ s2 = src ∧ st2 = srcStat) ∨
    (IsSymlink srcStat = true ∧ readlinkOp fs src = .ok s2 ∧
      stat fs s2 = .ok st2) := by
  unfold resolveSrcOnce at h
  split at h
  · rename_i hsym
    split at h
    · exact absurd h (by simp)
    · rename_i r hrl
      split at h
      · exact absurd h (by simp)
      · rename_i n hst
        simp only [Except.ok.injEq, Prod.mk.injEq] at h
        obtain ⟨h1, h2⟩ := h
        subst h1
        subst h2
        exact Or.inr ⟨hsym, hrl, hst⟩
  · rename_i hsym
    simp only [Except.ok.injEq, Prod.mk.injEq] at h
    obtain ⟨h1, h2⟩ := h
    subst h1
    subst h2
    exact Or.inl ⟨Bool.not_eq_true _ ▸ eq_false_of_ne_true hsym, rfl, rfl⟩

theorem copyData_ok_inv {fs : FS} {src dst : String} {expected : Nat}
    {fs2 : FS} {tr : List Ev}
    (h : copyData fs src expected dst = (none, fs2, tr)) :
    ∃ rp sn q fs1 c,
      openRead fs src = .ok (rp, sn) ∧
      createOp fs dst = .ok (q, fs1) ∧
      readAll ((lookupFS fs1 rp).getD sn) src = .ok c ∧
      c.length = expected ∧
      fs2 = setFS fs1 q { ((lookupFS fs1 q).getD sn) with data := c } ∧
      tr = [.readBytes src c.length, .wroteBytes q] := by
  unfold copyData at h
  split at h
  · exact absurd h (by simp)
  · rename_i rp sn hopen
    split at h
    · exact absurd h (by simp)
    · rename_i q fs1 hcreate
      split at h
      · exact absurd h (by simp)
      · rename_i c hread
        split at h
        · rename_i hlen
          simp only [Prod.mk.injEq] at h
          exact ⟨rp, sn, q, fs1, c, hopen, hcreate, hread, hlen,
            h.2.1.symm, h.2.2.symm⟩
        · exact absurd h (by simp)

theorem copyFileLinkOrData_ok_inv {fs : FS} {src dst : String}
    {follow : Bool} {srcStat : Node} {fs2 : FS} {tr : List Ev}
    (h : copyFileLinkOrData fs src dst follow srcStat = (none, fs2, tr)) :
    (follow = false ∧ IsSymlink srcStat = true ∧ lookupFS fs dst = none ∧
      fs2 = setFS fs dst ⟨freshIno fs, .symlink, src, 511⟩ ∧
      tr = [.madeSymlink dst src]) ∨
    ((follow = true ∨ IsSymlink srcStat = false) ∧ ∃ s2 st2,
      resolveSrcOnce fs src srcStat = .ok (s2, st2) ∧
      copyData fs s2 st2.size dst = (none, fs2, tr)) := by
  unfold copyFileLinkOrData at h
  split at h
  · rename_i hcond
    rw [Bool.and_eq_true, Bool.not_eq_true'] at hcond
    split at h
    · exact absurd h (by simp)
    · rename_i fs1 hsym
      simp only [Prod.mk.injEq] at h
      obtain ⟨hl, hfs⟩ := symlinkOp_ok_inv hsym
      exact Or.inl ⟨hcond.1, hcond.2, hl, h.2.1 ▸ hfs, h.2.2.symm⟩
  · rename_i hcond
    rw [Bool.and_eq_true, Bool.not_eq_true'] at hcond
    push_neg at hcond
    split at h
    · exact absurd h (by simp)
    · rename_i s2 st2 hro
      refine Or.inr ⟨?_, s2, st2, hro, h⟩
      by_cases hf : follow = true
      · exact Or.inl hf
      · have hf2 : follow = false := by
          cases follow
          · rfl
          · exact absurd rfl hf
        exact Or.inr (eq_false_of_ne_true (hcond hf2))

theorem CopyFile_ok_inv {fs : FS} {src dst : String} {follow : Bool}
    {fs2 : FS} {tr : List Ev}
    (h : CopyFile fs src dst follow = (none, fs2, tr)) :
    samefile fs src dst = false ∧ ∃ s,
      lstat fs src = .ok s ∧ specialfile s = false ∧
      ((∃ e, stat fs dst = .error e ∧ isNotExistErr e = true) ∨
       (∃ d, stat fs dst = .ok d ∧ specialfile d = false)) ∧
      copyFileLinkOrData fs src dst follow s = (none, fs2, tr) := by
  unfold CopyFile at h
  split at h
  · exact absurd h (by simp)
  · rename_i hsf
    have hsf2 : samefile fs src dst = false := eq_false_of_ne_true hsf
    split at h
    · exact absurd h (by simp)
    · rename_i s hls
      split at h
      · exact absurd h (by simp)
      · rename_i hsp
        have hsp2 : specialfile s = false := eq_false_of_ne_true hsp
        split at h
        · rename_i e hst
          split at h
          · rename_i hne
            exact ⟨hsf2, s, hls, hsp2, Or.inl ⟨e, hst, hne⟩, h⟩
          · exact absurd h (by simp)
        · rename_i d hst
          split at h
          · exact absurd h (by simp)
          · rename_i hspd
            exact ⟨hsf2, s, hls, hsp2,
              Or.inr ⟨d, hst, eq_false_of_ne_true hspd⟩, h⟩

theorem chmodOp_ok_inv {fs : FS} {p : String} {m : Nat} {fs1 : FS}
    (h : chmodOp fs p m = .ok fs1) :
    ∃ q n, resolve fs maxLinkDepth p = .ok (q, n) ∧
      fs1 = setFS fs q { n with mode := m } := by
  unfold chmodOp at h
  split at h
  · exact absurd h (by simp)
  · rename_i q n hres
    simp only [Except.ok.injEq] at h
    exact ⟨q, n, hres, h.symm⟩

theorem CopyMode_ok_inv {fs : FS} {src dst : String} {follow : Bool}
    {fs2 : FS} (h : CopyMode fs src dst follow = .ok fs2) :
    ∃ s d, lstat fs src = .ok s ∧ lstat fs dst = .ok d ∧
      (((!follow && IsSymlink s && IsSymlink d) = true ∧ fs2 = fs) ∨
       ((!follow && IsSymlink s && IsSymlink d) = false ∧
        ∃ s2 q nn, stat fs src = .ok s2 ∧
          resolve fs maxLinkDepth dst = .ok (q, nn) ∧
          fs2 = setFS fs q { nn with mode := s2.mode })) := by
  unfold CopyMode at h
  split at h
  · exact absurd h (by simp)
  · rename_i s hls
    split at h
    · exact absurd h (by simp)
    · rename_i d hld
      split at h
      · rename_i hcond
        simp only [ModeResult.ok.injEq] at h
        exact ⟨s, d, hls, hld, Or.inl ⟨hcond, h.symm⟩⟩
      · rename_i hcond
        have hcond2 := eq_false_of_ne_true hcond
        split at h
        · exact absurd h (by simp)
        · rename_i s2 hst
          split at h
          · exact absurd h (by simp)
          · rename_i fs1 hch
            simp only [ModeResult.ok.injEq] at h
            obtain ⟨q, nn, hres, hfs⟩ := chmodOp_ok_inv hch
            exact ⟨s, d, hls, hld,
              Or.inr ⟨hcond2, s2, q, nn, hst, hres, h ▸ hfs⟩⟩

theorem copyRest_ok_inv {fs : FS} {src dst : String} {follow : Bool}
    {p : String} {fs2 : FS}
    (h : copyRest fs src dst follow = .ok p fs2) :
    p = dst ∧ ∃ fs1 tr, CopyFile fs src dst follow = (none, fs1, tr) ∧
      CopyMode fs1 src dst follow = .ok fs2 := by
  unfold copyRest at h
  split at h
  · exact absurd h (by simp)
  · rename_i fs1 tr hcf
    split at h
    · exact absurd h (by simp)
    · exact absurd h (by simp)
    · rename_i fs3 hcm
      simp only [CopyResult.ok.injEq] at h
      exact ⟨h.1.symm, fs1, tr, hcf, h.2 ▸ hcm⟩

theorem Copy_ok_inv {fs : FS} {src dst : String} {follow : Bool}
    {p : String} {fs2 : FS}
    (h : Copy fs src dst follow = .ok p fs2) :
    ((∃ d, stat fs dst = .ok d ∧ d.ftype = .dir ∧
        p = joinPath dst (basePath src)) ∨
     (∃ d, stat fs dst = .ok d ∧ d.ftype ≠ .dir ∧ p = dst) ∨
     (∃ e, stat fs dst = .error e ∧ isNotExistErr e = true ∧ p = dst)) ∧
    ∃ fs1 tr, CopyFile fs src p follow = (none, fs1, tr) ∧
      CopyMode fs1 src p follow = .ok fs2 := by
  unfold Copy at h
  split at h
  · rename_i d hst
    split at h
    · rename_i hdir
      obtain ⟨hp, hrest⟩ := copyRest_ok_inv h
      exact ⟨Or.inl ⟨d, hst, hdir, hp⟩, hp ▸ hrest⟩
    · rename_i hdir
      obtain ⟨hp, hrest⟩ := copyRest_ok_inv h
      exact ⟨Or.inr (Or.inl ⟨d, hst, hdir, hp⟩), hp ▸ hrest⟩
  · rename_i e hst
    split at h
    · rename_i hne
      obtain ⟨hp, hrest⟩ := copyRest_ok_inv h
      exact ⟨Or.inr (Or.inr ⟨e, hst, hne, hp⟩), hp ▸ hrest⟩
    · exact absurd h (by simp)

/-! ### Small forward helpers -/

theorem maxLinkDepth_succ : maxLinkDepth = 39 + 1 := rfl

theorem resolve_succ_none {fs : FS} {p : String} {fuel : Nat}
    (h : lookupFS fs p = none) :
    resolve fs (fuel + 1) p = .error (.notExist p) := by
  unfold resolve
  rw [h]

theorem resolve_succ_nolink {fs : FS} {p : String} {fuel : Nat} {n : Node}
    (hl : lookupFS fs p = some n) (hns : n.ftype ≠ .symlink) :
    resolve fs (fuel + 1) p = .ok (p, n) := by
  unfold resolve
  rw [hl]
  simp only []
  rw [if_neg hns]

theorem resolve_succ_link {fs : FS} {p : String} {fuel : Nat} {n : Node}
    (hl : lookupFS fs p = some n) (hs : n.ftype = .symlink) :
    resolve fs (fuel + 1) p = resolve fs fuel n.data := by
  conv_lhs => unfold resolve
  rw [hl]
  simp only []
  rw [if_pos hs]

theorem stat_of_resolve_ok {fs : FS} {p q : String} {n : Node}
    (h : resolve fs maxLinkDepth p = .ok (q, n)) : stat fs p = .ok n := by
  unfold stat
  rw [h]
  rfl

theorem stat_of_resolve_error {fs : FS} {p : String} {e : OSErr}
    (h : resolve fs maxLinkDepth p = .error e) : stat fs p = .error e := by
  unfold stat
  rw [h]
  rfl

theorem stat_ok_resolve {fs : FS} {p : String} {n : Node}
    (h : stat fs p = .ok n) :
    ∃ q, resolve fs maxLinkDepth p = .ok (q, n) := by
  unfold stat at h
  cases hres : resolve fs maxLinkDepth p with
  | ok x =>
    rw [hres] at h
    cases x with
    | mk q m =>
      simp only [Except.map, Except.ok.injEq] at h
      exact ⟨q, by rw [h]⟩
  | error e =>
    rw [hres] at h
    simp [Except.map] at h

theorem stat_error_resolve {fs : FS} {p : String} {e : OSErr}
    (h : stat fs p = .error e) : resolve fs maxLinkDepth p = .error e := by
  unfold stat at h
  cases hres : resolve fs maxLinkDepth p with
  | ok x =>
    rw [hres] at h
    simp [Except.map] at h
  | error e2 =>
    rw [hres] at h
    simp only [Except.map, Except.error.injEq] at h
    rw [h]

theorem stat_of_lookup_none {fs : FS} {p : String}
    (h : lookupFS fs p = none) : stat fs p = .error (.notExist p) :=
  stat_of_resolve_error (maxLinkDepth_succ ▸ resolve_succ_none h)

theorem stat_of_lookup_nolink {fs : FS} {p : String} {n : Node}
    (hl : lookupFS fs p = some n) (hns : n.ftype ≠ .symlink) :
    stat fs p = .ok n :=
  stat_of_resolve_ok (maxLinkDepth_succ ▸ resolve_succ_nolink hl hns)

theorem samefile_eq_true {fs : FS} {src dst : String} {a b : Node}
    (hs : stat fs src = .ok a) (hd : stat fs dst = .ok b)
    (h : a.ino = b.ino) : samefile fs src dst = true := by
  unfold samefile
  rw [hs, hd]
  simp [h]

theorem samefile_false_of_src_error {fs : FS} {src dst : String} {e : OSErr}
    (h : stat fs src = .error e) : samefile fs src dst = false := by
  unfold samefile
  rw [h]

theorem samefile_false_of_dst_error {fs : FS} {src dst : String} {e : OSErr}
    (h : stat fs dst = .error e) : samefile fs src dst = false := by
  unfold samefile
  rw [h]
  cases stat fs src <;> rfl

theorem samefile_ino_ne {fs : FS} {src dst : String} {a b : Node}
    (hs : stat fs src = .ok a) (hd : stat fs dst = .ok b)
    (h : samefile fs src dst = false) : a.ino ≠ b.ino := by
  intro hc
  rw [samefile_eq_true hs hd hc] at h
  cases h

/-- Forward evaluation of `CopyFile` past the same-file and source checks,
for each outcome of the destination query. -/
theorem CopyFile_step {fs : FS} {src dst : String} {follow : Bool} {s : Node}
    (hsf : samefile fs src dst = false) (hls : lstat fs src = .ok s)
    (hsp : specialfile s = false) :
    (∀ d, stat fs dst = .ok d → specialfile d = false →
       CopyFile fs src dst follow = copyFileLinkOrData fs src dst follow s) ∧
    (∀ d, stat fs dst = .ok d → specialfile d = true →
       CopyFile fs src dst follow = (some (.specialFile dst), fs, [])) ∧
    (∀ e, stat fs dst = .error e → isNotExistErr e = true →
       CopyFile fs src dst follow = copyFileLinkOrData fs src dst follow s) := by
  refine ⟨fun d hd hspd => ?_, fun d hd hspd => ?_, fun e he hne => ?_⟩
  · simp [CopyFile, hsf, hls, hsp, hd, hspd]
  · simp [CopyFile, hsf, hls, hsp, hd, hspd]
  · simp [CopyFile, hsf, hls, hsp, he, hne]

theorem string_len_zero {s : String} (h : s.length = 0) : s = "" := by
  cases s with
  | mk d =>
    simp [String.length] at h
    simp [h]

/-- Structure of a successful byte copy (`copyData` returning no error),
given the surrounding facts `CopyFile` established: the one-level-resolved
source `s2` resolves to a non-special node `st2`; afterwards the
destination resolves to a freshly written regular node `N` at some path
`q` carrying exactly `st2`'s bytes; the new filesystem differs from the
old one only by updates at `q`; and `q` was either an existing regular
file (truncated in place, inode and mode preserved) or a dangling chain
end (created fresh with mode 0666). -/
theorem byte_success_facts {fs : FS} {src dst : String} {s : Node}
    {s2 : String} {st2 : Node} {fs2 : FS} {tr : List Ev}
    (hls : lstat fs src = .ok s)
    (hro : resolveSrcOnce fs src s = .ok (s2, st2))
    (hcd : copyData fs s2 st2.size dst = (none, fs2, tr)) :
    ∃ (q rp : String) (N : Node),
      resolve fs maxLinkDepth s2 = .ok (rp, st2) ∧
      st2.ftype ≠ .dir ∧ st2.ftype ≠ .pipe ∧ st2.ftype ≠ .symlink ∧
      lookupFS fs2 q = some N ∧ N.ftype = .regular ∧ N.data = st2.data ∧
      resolve fs2 maxLinkDepth dst = .ok (q, N) ∧
      SetsAt q fs fs2 ∧ noLink fs q ∧
      ((∃ nq, resolve fs maxLinkDepth dst = .ok (q, nq) ∧
          nq.ftype = .regular ∧ N.ino = nq.ino ∧ N.mode = nq.mode ∧
          lookupFS fs q = some nq) ∨
       (resolve fs maxLinkDepth dst = .error (.notExist q) ∧
        lookupFS fs q = none ∧ N.ino = freshIno fs ∧ N.mode = 438)) := by
  obtain ⟨rp, sn, q, fs1, c, hopen, hcreate, hread, hlen, hfs2, htr⟩ :=
    copyData_ok_inv hcd
  obtain ⟨hresS, hsnp⟩ := openRead_ok_inv hopen
  -- the node the open handle pins is the one the earlier metadata query saw
  have hsn : sn = st2 := by
    rcases resolveSrcOnce_ok_inv hro with ⟨hns, hs2, hst2⟩ | ⟨hsym, hrl, hst⟩
    · have hlk : lookupFS fs src = some s := by
        unfold lstat at hls
        cases hl : lookupFS fs src with
        | none => rw [hl] at hls; cases hls
        | some m =>
          rw [hl] at hls
          simp only [Except.ok.injEq] at hls
          rw [hls]
      have hnl : s.ftype ≠ .symlink := by
        intro hc
        rw [IsSymlink, hc] at hns
        cases hns
      have hr2 : resolve fs maxLinkDepth s2 = .ok (src, s) := by
        rw [hs2]
        exact maxLinkDepth_succ ▸ resolve_succ_nolink hlk hnl
      rw [hr2] at hresS
      simp only [Except.ok.injEq, Prod.mk.injEq] at hresS
      rw [hst2]
      exact hresS.2.symm
    · obtain ⟨qq, hres2⟩ := stat_ok_resolve hst
      rw [hres2] at hresS
      simp only [Except.ok.injEq, Prod.mk.injEq] at hresS
      exact hresS.2.symm
  rw [hsn] at hresS hread hfs2 hsnp
  have hrpl := resolve_ok_lookup hresS
  rcases createOp_ok_inv hcreate with
    ⟨nq, hresD, hnqr, hfs1⟩ | ⟨hresD, hfs1⟩
  · -- truncate case
    have hnql := resolve_ok_lookup hresD
    have hnqns : ({ nq with data := "" } : Node).ftype ≠ .symlink := by
      simp only []
      rw [hnqr]
      intro hc
      cases hc
    have hnolink : noLink fs q := by
      intro m hm
      rw [hnql.1] at hm
      cases hm
      rw [hnqr]
      intro hc
      cases hc
    have hAl : lookupFS fs1 q = some { nq with data := "" } := by
      rw [hfs1]
      exact lookup_set_self _ _ _
    have hAq : (lookupFS fs1 q).getD st2 = { nq with data := "" } := by
      rw [hAl]
      rfl
    -- what the handle read
    have hcval : c = st2.data ∧ st2.ftype ≠ .dir := by
      by_cases hrq : rp = q
      · have hstq : st2 = nq := by
          rw [hrq, hnql.1] at hrpl
          have h1 := hrpl.1
          simp only [Option.some.injEq] at h1
          exact h1.symm
        rw [hrq, hAl] at hread
        simp only [Option.getD_some] at hread
        obtain ⟨hnd, hc⟩ := readAll_ok_inv hread
        simp only [] at hc
        have hzero : st2.data.length = 0 := by
          rw [hc] at hlen
          simp only [Node.size] at hlen
          simpa using hlen.symm
        constructor
        · rw [hc, string_len_zero hzero]
        · rw [hstq, hnqr]
          intro hcon
          cases hcon
      · have hlk1 : lookupFS fs1 rp = some st2 := by
          rw [hfs1, lookup_set_ne _ _ (fun hc => hrq hc.symm)]
          exact hrpl.1
        rw [hlk1] at hread
        simp only [Option.getD_some] at hread
        obtain ⟨hnd, hc⟩ := readAll_ok_inv hread
        exact ⟨hc, hnd⟩
    obtain ⟨hc, hsnd⟩ := hcval
    have hNns : ({ nq with data := c } : Node).ftype ≠ .symlink := by
      simp only []
      rw [hnqr]
      intro hcon
      cases hcon
    refine ⟨q, rp, { nq with data := c }, hresS, hsnd, hsnp, hrpl.2,
      ?_, hnqr, hc, ?_, ?_, hnolink, ?_⟩
    · rw [hfs2, hAq]
      exact lookup_set_self _ _ _
    · have hresD1 : resolve fs1 maxLinkDepth dst =
          .ok (q, { nq with data := "" }) := by
        rw [hfs1]
        exact resolve_set_final hnqns hresD
      rw [hfs2, hAq]
      exact resolve_set_final hNns hresD1
    · rw [hfs2, hAq, hfs1]
      exact SetsAt.step _ (SetsAt.step _ (SetsAt.refl fs) hnqns) hNns
    · exact Or.inl ⟨nq, hresD, hnqr, rfl, rfl, hnql.1⟩
  · -- fresh-create case
    have hnone := resolve_notExist_lookup hresD
    have hnolink : noLink fs q := by
      intro m hm
      rw [hnone] at hm
      cases hm
    have hAl : lookupFS fs1 q = some ⟨freshIno fs, .regular, "", 438⟩ := by
      rw [hfs1]
      exact lookup_set_self _ _ _
    have hAq : (lookupFS fs1 q).getD st2 =
        ⟨freshIno fs, .regular, "", 438⟩ := by
      rw [hAl]
      rfl
    have hrq : rp ≠ q := by
      intro hc
      rw [hc, hnone] at hrpl
      cases hrpl.1
    have hlk1 : lookupFS fs1 rp = some st2 := by
      rw [hfs1, lookup_set_ne _ _ (fun hc => hrq hc.symm)]
      exact hrpl.1
    rw [hlk1] at hread
    simp only [Option.getD_some] at hread
    obtain ⟨hnd, hc⟩ := readAll_ok_inv hread
    refine ⟨q, rp, ⟨freshIno fs, .regular, c, 438⟩, hresS, hnd, hsnp,
      hrpl.2, ?_, rfl, hc, ?_, ?_, hnolink, ?_⟩
    · rw [hfs2, hAq]
      exact lookup_set_self _ _ _
    · have hresD1 : resolve fs1 maxLinkDepth dst =
          .ok (q, (⟨freshIno fs, .regular, "", 438⟩ : Node)) := by
        rw [hfs1]
        exact resolve_notExist_set (by intro hcon; cases hcon) hresD
      rw [hfs2, hAq]
      exact resolve_set_final (by intro hcon; cases hcon) hresD1
    · rw [hfs2, hAq, hfs1]
      exact SetsAt.step _ (SetsAt.step _ (SetsAt.refl fs)
        (by intro hcon; cases hcon)) (by intro hcon; cases hcon)
    · exact Or.inr ⟨hresD, hnone, rfl, rfl⟩

/-! ### Forward evaluation helpers -/

theorem resolve_ok_first {fs : FS} {p : String} {x : String × Node}
    (h : resolve fs maxLinkDepth p = .ok x) :
    ∃ m, lookupFS fs p = some m := by
  rw [maxLinkDepth_succ] at h
  unfold resolve at h
  cases hl : lookupFS fs p with
  | none => rw [hl] at h; cases h
  | some m => exact ⟨m, rfl⟩

theorem lstat_of_lookup {fs : FS} {p : String} {n : Node}
    (h : lookupFS fs p = some n) : lstat fs p = .ok n := by
  unfold lstat
  rw [h]

theorem lstat_ok_lookup {fs : FS} {p : String} {n : Node}
    (h : lstat fs p = .ok n) : lookupFS fs p = some n := by
  unfold lstat at h
  cases hl : lookupFS fs p with
  | none => rw [hl] at h; cases h
  | some m =>
    rw [hl] at h
    simp only [Except.ok.injEq] at h
    rw [h]

theorem samefile_false_of_ino_ne {fs : FS} {src dst : String} {a b : Node}
    (hs : stat fs src = .ok a) (hd : stat fs dst = .ok b)
    (h : a.ino ≠ b.ino) : samefile fs src dst = false := by
  unfold samefile
  rw [hs, hd]
  simp [h]

theorem openRead_eval {fs : FS} {p rp : String} {n : Node}
    (hres : resolve fs maxLinkDepth p = .ok (rp, n))
    (hnp : n.ftype ≠ .pipe) : openRead fs p = .ok (rp, n) := by
  simp [openRead, hres, hnp]

theorem createOp_eval_trunc {fs : FS} {p q : String} {n : Node}
    (hres : resolve fs maxLinkDepth p = .ok (q, n))
    (hreg : n.ftype = .regular) :
    createOp fs p = .ok (q, setFS fs q { n with data := "" }) := by
  simp [createOp, hres, hreg]

theorem copyData_eval {fs : FS} {s2 dst rp : String} {st2 : Node}
    {q : String} {fs1 : FS}
    (hopen : openRead fs s2 = .ok (rp, st2))
    (hcreate : createOp fs dst = .ok (q, fs1))
    (hrd : lookupFS fs1 rp = some st2) (hnd : st2.ftype ≠ .dir) :
    copyData fs s2 st2.size dst =
      (none,
       setFS fs1 q { ((lookupFS fs1 q).getD st2) with data := st2.data },
       [.readBytes s2 st2.data.length, .wroteBytes q]) := by
  simp [copyData, hopen, hcreate, hrd, readAll, hnd, Node.size]

theorem resolveSrcOnce_eval_plain {fs : FS} {src : String} {s : Node}
    (h : IsSymlink s = false) : resolveSrcOnce fs src s = .ok (src, s) := by
  simp [resolveSrcOnce, h]

theorem resolveSrcOnce_eval_link {fs : FS} {src r : String} {s n : Node}
    (h : IsSymlink s = true) (hrl : readlinkOp fs src = .ok r)
    (hst : stat fs r = .ok n) : resolveSrcOnce fs src s = .ok (r, n) := by
  simp [resolveSrcOnce, h, hrl, hst]

theorem copyFileLinkOrData_eval_byte {fs : FS} {src dst : String}
    {follow : Bool} {s : Node} {s2 : String} {st2 : Node}
    (hcond : (!follow && IsSymlink s) = false)
    (hro : resolveSrcOnce fs src s = .ok (s2, st2)) :
    copyFileLinkOrData fs src dst follow s = copyData fs s2 st2.size dst := by
  simp [copyFileLinkOrData, hcond, hro]

theorem CopyMode_eval_chmod {fs : FS} {src dst : String} {follow : Bool}
    {s d s2 : Node} {q : String} {nn : Node}
    (hls : lstat fs src = .ok s) (hld : lstat fs dst = .ok d)
    (hcond : (!follow && IsSymlink s && IsSymlink d) = false)
    (hst : stat fs src = .ok s2)
    (hres : resolve fs maxLinkDepth dst = .ok (q, nn)) :
    CopyMode fs src dst follow =
      .ok (setFS fs q { nn with mode := s2.mode }) := by
  simp [CopyMode, hls, hld, hcond, hst, chmodOp, hres]

theorem copyRest_eval {fs fsB fs2 : FS} {src dst : String} {follow : Bool}
    {tr : List Ev}
    (hcf : CopyFile fs src dst follow = (none, fsB, tr))
    (hcm : CopyMode fsB src dst follow = .ok fs2) :
    copyRest fs src dst follow = .ok dst fs2 := by
  simp [copyRest, hcf, hcm]

theorem Copy_eval_dir {fs : FS} {src dst : String} {follow : Bool} {d : Node}
    (hstat : stat fs dst = .ok d) (hdir : d.ftype = .dir) :
    Copy fs src dst follow =
      copyRest fs src (joinPath dst (basePath src)) follow := by
  simp [Copy, hstat, hdir]

theorem Copy_eval_nondir {fs : FS} {src dst : String} {follow : Bool}
    {d : Node} (hstat : stat fs dst = .ok d) (hdir : d.ftype ≠ .dir) :
    Copy fs src dst follow = copyRest fs src dst follow := by
  simp [Copy, hstat, hdir]

theorem readAll_eval {n : Node} {p : String} (h : n.ftype ≠ .dir) :
    readAll n p = .ok n.data := by
  simp [readAll, h]

theorem readlinkOp_eval {fs : FS} {p : String} {n : Node}
    (hl : lookupFS fs p = some n) (hs : n.ftype = .symlink) :
    readlinkOp fs p = .ok n.data := by
  simp [readlinkOp, hl, hs]

theorem readlink_ok_inv {fs : FS} {p r : String} {n : Node}
    (hls : lstat fs p = .ok n) (h : readlinkOp fs p = .ok r) :
    r = n.data ∧ n.ftype = .symlink := by
  have hl := lstat_ok_lookup hls
  unfold readlinkOp at h
  rw [hl] at h
  simp only [] at h
  split at h
  · rename_i hsym
    simp only [Except.ok.injEq] at h
    exact ⟨h.symm, hsym⟩
  · cases h

theorem contentsOf_eval {fs : FS} {p q : String} {n : Node}
    (hres : resolve fs maxLinkDepth p = .ok (q, n))
    (hp : n.ftype ≠ .pipe) (hd : n.ftype ≠ .dir) :
    contentsOf fs p = .ok n.data := by
  simp [contentsOf, openRead_eval hres hp, readAll_eval hd]

theorem sourceBytes_eval {fs : FS} {src : String} {s : Node} {s2 : String}
    {st2 : Node} {rp : String}
    (hls : lstat fs src = .ok s)
    (hro : resolveSrcOnce fs src s = .ok (s2, st2))
    (hres : resolve fs maxLinkDepth s2 = .ok (rp, st2))
    (hp : st2.ftype ≠ .pipe) (hd : st2.ftype ≠ .dir) :
    sourceBytes fs src = .ok st2.data := by
  simp [sourceBytes, hls, hro, contentsOf_eval hres hp hd]

theorem copyRest_err_path {fs fs3 : FS} {src dst p : String} {follow : Bool}
    {e : Err} (h : copyRest fs src dst follow = .err p e fs3) : p = dst := by
  unfold copyRest at h
  split at h
  · simp only [CopyResult.err.injEq] at h
    exact h.1.symm
  · split at h
    · simp only [CopyResult.err.injEq] at h
      exact h.1.symm
    · cases h
    · cases h

/-! ### Claim theorems -/

/-- C1, counterexample: src is a symlink `"s" → "t"`, dst `"d"` is fresh;
`CopyFile("s", "d", false)` succeeds but creates `"d"` as a symlink whose
target string is `"s"` (the src path handed to `os.Symlink`), which is not
the target string `"t"` that src points to.  This refutes the claim that
dst's target string equals src's target string. -/
theorem c1_counterexample :
    CopyFile [("s", ⟨1, .symlink, "t", 511⟩), ("t", ⟨2, .regular, "hi", 420⟩)]
        "s" "d" false =
      (none,
       [("d", ⟨3, .symlink, "s", 511⟩),
        ("s", ⟨1, .symlink, "t", 511⟩), ("t", ⟨2, .regular, "hi", 420⟩)],
       [.madeSymlink "d" "s"]) ∧
    ("s" : String) ≠ "t" := by
  constructor
  · decide
  · decide

/-- C1 (amended): for every symlink src and fresh dst,
`CopyFile(src, dst, followSymlinks := false)` succeeds and creates dst as
a new symlink whose target string is the src path itself (so dst resolves
through src), and no bytes of the link target are read (the trace contains
no read event). -/
theorem c1_symlink_copy (fs : FS) (src dst : String) (n : Node)
    (hls : lstat fs src = .ok n) (hft : n.ftype = .symlink)
    (hdst : lookupFS fs dst = none) :
    CopyFile fs src dst false =
      (none, setFS fs dst ⟨freshIno fs, .symlink, src, 511⟩,
        [.madeSymlink dst src]) ∧
    ∀ (p : String) (k : Nat),
      Ev.readBytes p k ∉ (CopyFile fs src dst false).2.2 := by
  have hstd : stat fs dst = .error (.notExist dst) := stat_of_lookup_none hdst
  have hsf : samefile fs src dst = false := samefile_false_of_dst_error hstd
  have hsp : specialfile n = false := by rw [specialfile, hft]; rfl
  have hsym : IsSymlink n = true := by rw [IsSymlink, hft]; rfl
  have hso : symlinkOp fs src dst =
      .ok (setFS fs dst ⟨freshIno fs, .symlink, src, 511⟩) := by
    unfold symlinkOp
    rw [hdst]
  have hmain : CopyFile fs src dst false =
      (none, setFS fs dst ⟨freshIno fs, .symlink, src, 511⟩,
        [.madeSymlink dst src]) := by
    rw [(CopyFile_step hsf hls hsp).2.2 _ hstd rfl]
    simp [copyFileLinkOrData, hsym, hso]
  refine ⟨hmain, fun p k => ?_⟩
  rw [hmain]
  simp

/-- C1 witness: the amended theorem applied at a concrete symlink. -/
theorem c1_witness :
    CopyFile [("s", ⟨1, .symlink, "t", 511⟩), ("t", ⟨2, .regular, "hi", 420⟩)]
        "s" "e" false =
      (none,
       setFS [("s", ⟨1, .symlink, "t", 511⟩), ("t", ⟨2, .regular, "hi", 420⟩)]
         "e" ⟨3, .symlink, "s", 511⟩,
       [.madeSymlink "e" "s"]) :=
  (c1_symlink_copy _ "s" "e" ⟨1, .symlink, "t", 511⟩
    (by rfl) (by rfl) (by rfl)).1

/-- C2, counterexample: a `CopyFile` invocation (on a plain regular file)
that reaches the data-copy step: its effect trace is exactly one byte read
and one write — there is no clone attempt preceding the byte copy, which
refutes the claim that the clone fast path is attempted first. -/
theorem c2_counterexample :
    (CopyFile [("a", ⟨1, .regular, "hi", 420⟩)] "a" "b" true).2.2 =
      [Ev.readBytes "a" 2, Ev.wroteBytes "b"] := by decide

/-- Every trace `copyData` can produce. -/
theorem copyData_trace_shape (fs : FS) (src : String) (expected : Nat)
    (dst : String) :
    (copyData fs src expected dst).2.2 = [] ∨
    ∃ k q, (copyData fs src expected dst).2.2 =
      [.readBytes src k, .wroteBytes q] := by
  unfold copyData
  split
  · exact Or.inl rfl
  · split
    · exact Or.inl rfl
    · split
      · exact Or.inl rfl
      · split
        · exact Or.inr ⟨_, _, rfl⟩
        · exact Or.inr ⟨_, _, rfl⟩

/-- Every trace `copyFileLinkOrData` can produce. -/
theorem copyFileLinkOrData_trace_shape (fs : FS) (src dst : String)
    (follow : Bool) (srcStat : Node) :
    (copyFileLinkOrData fs src dst follow srcStat).2.2 = [] ∨
    (copyFileLinkOrData fs src dst follow srcStat).2.2 =
      [.madeSymlink dst src] ∨
    ∃ p k q, (copyFileLinkOrData fs src dst follow srcStat).2.2 =
      [.readBytes p k, .wroteBytes q] := by
  unfold copyFileLinkOrData
  split
  · split
    · exact Or.inl rfl
    · exact Or.inr (Or.inl rfl)
  · split
    · exact Or.inl rfl
    · rename_i s2 st2 hro
      rcases copyData_trace_shape fs s2 st2.size dst with h | ⟨k, q, h⟩
      · exact Or.inl h
      · exact Or.inr (Or.inr ⟨s2, k, q, h⟩)

/-- Every trace `CopyFile` can produce. -/
theorem CopyFile_trace_shape (fs : FS) (src dst : String) (follow : Bool) :
    (CopyFile fs src dst follow).2.2 = [] ∨
    (CopyFile fs src dst follow).2.2 = [.madeSymlink dst src] ∨
    ∃ p k q, (CopyFile fs src dst follow).2.2 =
      [.readBytes p k, .wroteBytes q] := by
  unfold CopyFile
  split
  · exact Or.inl rfl
  · split
    · exact Or.inl rfl
    · split
      · exact Or.inl rfl
      · split
        · split
          · exact copyFileLinkOrData_trace_shape fs src dst follow _
          · exact Or.inl rfl
        · split
          · exact Or.inl rfl
          · exact copyFileLinkOrData_trace_shape fs src dst follow _

/-- C2 (amended): the `linux,cgo` build defines `clonefile` with the
documented soft-failure contract — a failing ioctl yields
`(false, err)` and success `(true, nil)` — but `CopyFile` never invokes
it: no invocation's effect trace contains a clone attempt; whenever the
data-copy step is reached it is the full read/write byte copy. -/
theorem c2_no_clone_attempt :
    (∀ (fs : FS) (src dst : String) (follow : Bool) (d s : String),
       Ev.cloneAttempt d s ∉ (CopyFile fs src dst follow).2.2) ∧
    (∀ e, clonefile (some e) = (false, some e)) ∧
    clonefile none = (true, none) := by
  refine ⟨fun fs src dst follow d s => ?_, fun e => rfl, rfl⟩
  rcases CopyFile_trace_shape fs src dst follow with h | h | ⟨p, k, q, h⟩ <;>
    rw [h] <;> simp

/-- C3: evaluation at the failing input.  With src a dangling symlink
(`lstat` succeeds, the followed `stat` fails) and dst a regular file, the
both-symlinks shortcut is not taken, line 139's `srcStat, _ = os.Stat(src)`
discards the query's error, and `srcStat.Mode()` dereferences a nil
`FileInfo`: the embedded `CopyMode` neither succeeds nor returns an error
— it panics, so the error is not surfaced to the caller as the claim
requires. -/
theorem c3_copymode_swallows_stat_error :
    CopyMode
      [("badlink", ⟨1, .symlink, "gone", 511⟩),
       ("plain", ⟨2, .regular, "x", 420⟩)]
      "badlink" "plain" true = .panicked := by decide

/-- C4, counterexample: dst `"d"` is a symlink to a named pipe `"p"`.  A
no-follow examination of dst sees a symlink, not a pipe, so under the
claim this step could not fail with SpecialFileError — yet the call
returns `SpecialFileError` for dst, because the code examines dst with the
followed query `os.Stat`, refuting "examined with a no-follow metadata
query". -/
theorem c4_counterexample :
    CopyFile
        [("d", ⟨1, .symlink, "p", 511⟩), ("p", ⟨2, .pipe, "", 420⟩),
         ("s", ⟨3, .regular, "x", 420⟩)] "s" "d" true =
      (some (.specialFile "d"),
       [("d", ⟨1, .symlink, "p", 511⟩), ("p", ⟨2, .pipe, "", 420⟩),
        ("s", ⟨3, .regular, "x", 420⟩)], []) ∧
    lstat [("d", ⟨1, .symlink, "p", 511⟩), ("p", ⟨2, .pipe, "", 420⟩),
        ("s", ⟨3, .regular, "x", 420⟩)] "d" =
      .ok ⟨1, .symlink, "p", 511⟩ ∧
    specialfile ⟨1, .symlink, "p", 511⟩ = false :=
  ⟨by decide, by rfl, by rfl⟩

/-- C4 (amended): the destination is examined with a followed metadata
query (`os.Stat`): if dst resolves to an existing named pipe the call
fails with SpecialFileError for dst, and a "does not exist" result for dst
is not an error at that step — the copy continues. -/
theorem c4_dst_followed_check :
    ∀ (fs : FS) (src dst : String) (follow : Bool) (s : Node),
      samefile fs src dst = false → lstat fs src = .ok s →
      specialfile s = false →
      (∀ d, stat fs dst = .ok d → specialfile d = true →
         CopyFile fs src dst follow = (some (.specialFile dst), fs, [])) ∧
      (∀ e, stat fs dst = .error e → isNotExistErr e = true →
         CopyFile fs src dst follow =
           copyFileLinkOrData fs src dst follow s) :=
  fun _ _ _ _ _ hsf hls hsp =>
    ⟨(CopyFile_step hsf hls hsp).2.1, (CopyFile_step hsf hls hsp).2.2⟩

/-- C4 witness: both halves of the amended theorem at concrete inputs. -/
theorem c4_witness :
    CopyFile [("q", ⟨1, .pipe, "", 420⟩), ("s", ⟨2, .regular, "x", 420⟩)]
        "s" "q" true =
      (some (.specialFile "q"),
       [("q", ⟨1, .pipe, "", 420⟩), ("s", ⟨2, .regular, "x", 420⟩)], []) ∧
    CopyFile [("s", ⟨2, .regular, "x", 420⟩)] "s" "m" true =
      copyFileLinkOrData [("s", ⟨2, .regular, "x", 420⟩)] "s" "m" true
        ⟨2, .regular, "x", 420⟩ :=
  ⟨(c4_dst_followed_check _ "s" "q" true ⟨2, .regular, "x", 420⟩
      (by rfl) (by rfl) (by rfl)).1 ⟨1, .pipe, "", 420⟩ (by rfl) (by rfl),
   (c4_dst_followed_check _ "s" "m" true ⟨2, .regular, "x", 420⟩
      (by rfl) (by rfl) (by rfl)).2 (.notExist "m") (by rfl) (by rfl)⟩

/-- C5: `CopyFile` fails with SameFileError, leaving the filesystem
untouched and performing no data effects, both for `CopyFile(F, F, follow)`
with F resolvable, and in general whenever src and dst resolve to the same
inode identity. -/
theorem c5_samefile_guard :
    (∀ (fs : FS) (F : String) (follow : Bool) (n : Node),
       stat fs F = .ok n →
       CopyFile fs F F follow = (some (.sameFile F F), fs, [])) ∧
    (∀ (fs : FS) (src dst : String) (follow : Bool) (a b : Node),
       stat fs src = .ok a → stat fs dst = .ok b → a.ino = b.ino →
       CopyFile fs src dst follow = (some (.sameFile src dst), fs, [])) := by
  have key : ∀ (fs : FS) (src dst : String) (follow : Bool) (a b : Node),
      stat fs src = .ok a → stat fs dst = .ok b → a.ino = b.ino →
      CopyFile fs src dst follow = (some (.sameFile src dst), fs, []) := by
    intro fs src dst follow a b hs hd h
    unfold CopyFile
    rw [samefile_eq_true hs hd h]
    simp
  exact ⟨fun fs F follow n h => key fs F F follow n n h h rfl, key⟩

/-- C5 witness: both halves at a concrete file. -/
theorem c5_witness :
    CopyFile [("f", ⟨1, .regular, "x", 420⟩)] "f" "f" true =
      (some (.sameFile "f" "f"), [("f", ⟨1, .regular, "x", 420⟩)], []) ∧
    CopyFile [("f", ⟨1, .regular, "x", 420⟩), ("g", ⟨1, .regular, "x", 420⟩)]
        "f" "g" false =
      (some (.sameFile "f" "g"),
       [("f", ⟨1, .regular, "x", 420⟩), ("g", ⟨1, .regular, "x", 420⟩)],
       []) :=
  ⟨c5_samefile_guard.1 _ "f" true ⟨1, .regular, "x", 420⟩ (by rfl),
   c5_samefile_guard.2 _ "f" "g" false ⟨1, .regular, "x", 420⟩
     ⟨1, .regular, "x", 420⟩ (by rfl) (by rfl) rfl⟩

/-- C6, counterexample: with X = P (the pipe itself), `CopyFile(P, P, *)`
fails with SameFileError, not SpecialFileError, refuting the claim as
universally stated over every path X. -/
theorem c6_counterexample :
    CopyFile [("p", ⟨1, .pipe, "", 420⟩)] "p" "p" true =
      (some (.sameFile "p" "p"), [("p", ⟨1, .pipe, "", 420⟩)], []) ∧
    Err.sameFile "p" "p" ≠ Err.specialFile "p" :=
  ⟨by decide, by decide⟩

/-- C6 (amended): provided src and dst are not the same file, a named pipe
source fails with SpecialFileError for src, and a pre-existing named pipe
destination (with src existing) fails with a SpecialFileError (for src if
src is itself special, else for dst); in both cases the filesystem is
unchanged and no bytes are transferred. -/
theorem c6_pipe_special_guard :
    (∀ (fs : FS) (P X : String) (follow : Bool) (n : Node),
       lstat fs P = .ok n → n.ftype = .pipe → samefile fs P X = false →
       CopyFile fs P X follow = (some (.specialFile P), fs, [])) ∧
    (∀ (fs : FS) (X P : String) (follow : Bool) (s d : Node),
       samefile fs X P = false → lstat fs X = .ok s →
       stat fs P = .ok d → d.ftype = .pipe →
       ∃ w, CopyFile fs X P follow = (some (.specialFile w), fs, [])) := by
  constructor
  · intro fs P X follow n hls hft hsf
    unfold CopyFile
    rw [hsf]
    simp [hls, specialfile, hft]
  · intro fs X P follow s d hsf hls hst hft
    by_cases hsp : specialfile s = true
    · refine ⟨X, ?_⟩
      unfold CopyFile
      rw [hsf]
      simp [hls, hsp]
    · refine ⟨P, (CopyFile_step hsf hls (eq_false_of_ne_true hsp)).2.1 d hst
        ?_⟩
      rw [specialfile, hft]
      rfl

/-- C6 witness: both halves at concrete pipes. -/
theorem c6_witness :
    CopyFile [("q", ⟨1, .pipe, "", 420⟩), ("x", ⟨2, .regular, "a", 420⟩)]
        "q" "x" false =
      (some (.specialFile "q"),
       [("q", ⟨1, .pipe, "", 420⟩), ("x", ⟨2, .regular, "a", 420⟩)], []) ∧
    ∃ w,
      CopyFile [("q", ⟨1, .pipe, "", 420⟩), ("x", ⟨2, .regular, "a", 420⟩)]
          "x" "q" false =
        (some (.specialFile w),
         [("q", ⟨1, .pipe, "", 420⟩), ("x", ⟨2, .regular, "a", 420⟩)], []) :=
  ⟨(c6_pipe_special_guard.1 _ "q" "x" false ⟨1, .pipe, "", 420⟩
      (by rfl) (by rfl) (by rfl)),
   (c6_pipe_special_guard.2 _ "x" "q" false ⟨2, .regular, "a", 420⟩
      ⟨1, .pipe, "", 420⟩ (by rfl) (by rfl) (by rfl) (by rfl))⟩

/-- C8: the byte-copy step compares the number of bytes streamed against
the size recorded by the earlier source metadata query — taken from the
no-follow query when src was not a symlink, and from the re-query after
the one-level `Readlink` resolution when it was — and on mismatch fails
with the error embedding the (resolved) source path, the bytes copied and
the expected size, while on equality it succeeds. -/
theorem c8_size_check :
    (∀ (fs : FS) (src dst : String) (expected : Nat) (rp : String)
       (sn : Node) (q : String) (fs1 : FS) (c : String),
       openRead fs src = .ok (rp, sn) → createOp fs dst = .ok (q, fs1) →
       readAll ((lookupFS fs1 rp).getD sn) src = .ok c →
       (c.length ≠ expected →
          copyData fs src expected dst =
            (some (.sizeMismatch src c.length expected),
             setFS fs1 q { ((lookupFS fs1 q).getD sn) with data := c },
             [.readBytes src c.length, .wroteBytes q])) ∧
       (c.length = expected →
          copyData fs src expected dst =
            (none,
             setFS fs1 q { ((lookupFS fs1 q).getD sn) with data := c },
             [.readBytes src c.length, .wroteBytes q]))) ∧
    (∀ (fs : FS) (src dst : String) (follow : Bool) (srcStat : Node),
       IsSymlink srcStat = false →
       copyFileLinkOrData fs src dst follow srcStat =
         copyData fs src srcStat.size dst) ∧
    (∀ (fs : FS) (src dst : String) (srcStat : Node) (r : String) (n : Node),
       IsSymlink srcStat = true → readlinkOp fs src = .ok r →
       stat fs r = .ok n →
       copyFileLinkOrData fs src dst true srcStat =
         copyData fs r n.size dst) := by
  refine ⟨?_, ?_, ?_⟩
  · intro fs src dst expected rp sn q fs1 c hopen hcreate hread
    constructor
    · intro hne
      simp [copyData, hopen, hcreate, hread, hne]
    · intro hlen
      simp [copyData, hopen, hcreate, hread, hlen]
  · intro fs src dst follow srcStat hsym
    simp [copyFileLinkOrData, resolveSrcOnce, hsym]
  · intro fs src dst srcStat r n hsym hrl hst
    simp [copyFileLinkOrData, resolveSrcOnce, hsym, hrl, hst]

/-- C8 witness: all three conjuncts at concrete inputs, including an
exercised mismatch (2 bytes streamed against an expected size of 5). -/
theorem c8_witness :
    copyData [("a", ⟨1, .regular, "hi", 420⟩)] "a" 5 "b" =
      (some (.sizeMismatch "a" 2 5),
       setFS [("b", ⟨2, .regular, "", 438⟩), ("a", ⟨1, .regular, "hi", 420⟩)]
         "b" ⟨2, .regular, "hi", 438⟩,
       [.readBytes "a" 2, .wroteBytes "b"]) ∧
    copyFileLinkOrData [("a", ⟨1, .regular, "hi", 420⟩)] "a" "b" true
        ⟨1, .regular, "hi", 420⟩ =
      copyData [("a", ⟨1, .regular, "hi", 420⟩)] "a" 2 "b" ∧
    copyFileLinkOrData
        [("l", ⟨1, .symlink, "t", 511⟩), ("t", ⟨2, .regular, "hi", 420⟩)]
        "l" "b" true ⟨1, .symlink, "t", 511⟩ =
      copyData [("l", ⟨1, .symlink, "t", 511⟩), ("t", ⟨2, .regular, "hi", 420⟩)]
        "t" 2 "b" :=
  ⟨(c8_size_check.1 _ "a" "b" 5 "a" ⟨1, .regular, "hi", 420⟩ "b"
      [("b", ⟨2, .regular, "", 438⟩), ("a", ⟨1, .regular, "hi", 420⟩)] "hi"
      (by rfl) (by rfl) (by rfl)).1 (by decide),
   c8_size_check.2.1 _ "a" "b" true ⟨1, .regular, "hi", 420⟩ (by rfl),
   c8_size_check.2.2 _ "l" "b" ⟨1, .symlink, "t", 511⟩ "t"
     ⟨2, .regular, "hi", 420⟩ (by rfl) (by rfl) (by rfl)⟩

/-- C7: when dst exists and is a directory, `Copy` redirects the
destination to `dst/basename(src)`; the returned path equals exactly that
joined path (on success and on error alike), and on success that path
exists and holds contents matching src — either as a fresh symlink whose
target string is src (the no-follow symlink shortcut), or byte-for-byte
the contents read from src's resolution. -/
theorem c7_dir_redirect (fs : FS) (src dst : String) (follow : Bool)
    (d : Node) (hstat : stat fs dst = .ok d) (hdir : d.ftype = .dir) :
    (∀ (p : String) (fs3 : FS), Copy fs src dst follow = .ok p fs3 →
       p = joinPath dst (basePath src) ∧
       (∃ n, lookupFS fs3 p = some n) ∧
       ((∃ n, lookupFS fs3 p = some n ∧ n.ftype = .symlink ∧
           n.data = src) ∨
        contentsOf fs3 p = sourceBytes fs src)) ∧
    (∀ (p : String) (e : Err) (fs3 : FS),
       Copy fs src dst follow = .err p e fs3 →
       p = joinPath dst (basePath src)) := by
  constructor
  · intro p fs3 h
    obtain ⟨hcase, fsB, tr, hcf, hcm⟩ := Copy_ok_inv h
    have hp : p = joinPath dst (basePath src) := by
      rcases hcase with ⟨d2, hst2, _, hpp⟩ | ⟨d2, hst2, hnd, _⟩ |
        ⟨e, hst2, _, _⟩
      · exact hpp
      · rw [hstat] at hst2
        simp only [Except.ok.injEq] at hst2
        rw [← hst2] at hnd
        exact absurd hdir hnd
      · rw [hstat] at hst2
        cases hst2
    refine ⟨hp, ?_⟩
    obtain ⟨hsf, s, hls, hsp, hdstchk, hlod⟩ := CopyFile_ok_inv hcf
    rcases copyFileLinkOrData_ok_inv hlod with
      ⟨hf, hsym, hfresh, hfsB, htr⟩ | ⟨hor, s2, st2, hro, hcd⟩
    · -- no-follow symlink shortcut
      have hlk : lookupFS fsB p = some ⟨freshIno fs, .symlink, src, 511⟩ := by
        rw [hfsB]
        exact lookup_set_self _ _ _
      obtain ⟨sm, dm, hlsm, hldm, hmode⟩ := CopyMode_ok_inv hcm
      rcases hmode with ⟨_, hfs3⟩ | ⟨_, s2m, qq, nn, hstm, hresm, hfs3⟩
      · rw [hfs3]
        exact ⟨⟨_, hlk⟩, Or.inl ⟨_, hlk, rfl, rfl⟩⟩
      · have hqqp : qq ≠ p := by
          intro hc
          have h1 := (resolve_ok_lookup hresm).1
          rw [hc, hlk] at h1
          simp only [Option.some.injEq] at h1
          have h2 := (resolve_ok_lookup hresm).2
          rw [← h1] at h2
          exact h2 rfl
        have hlk3 : lookupFS fs3 p =
            some ⟨freshIno fs, .symlink, src, 511⟩ := by
          rw [hfs3, lookup_set_ne _ _ hqqp]
          exact hlk
        exact ⟨⟨_, hlk3⟩, Or.inl ⟨_, hlk3, rfl, rfl⟩⟩
    · -- byte copy
      obtain ⟨q, rp, N, hresS2, hst2d, hst2p, hst2s, hlkN, hNreg, hNdata,
        hresDB, hsets, hnolink, hdisj⟩ := byte_success_facts hls hro hcd
      have hNd : N.ftype ≠ .dir := by
        rw [hNreg]
        intro hc
        cases hc
      have hNp : N.ftype ≠ .pipe := by
        rw [hNreg]
        intro hc
        cases hc
      have hsb : sourceBytes fs src = .ok st2.data :=
        sourceBytes_eval hls hro hresS2 hst2p hst2d
      obtain ⟨sm, dm, hlsm, hldm, hmode⟩ := CopyMode_ok_inv hcm
      rcases hmode with ⟨_, hfs3⟩ | ⟨_, s2m, qq, nn, hstm, hresm, hfs3⟩
      · rw [hfs3]
        refine ⟨resolve_ok_first hresDB, Or.inr ?_⟩
        rw [contentsOf_eval hresDB hNp hNd, hNdata, hsb]
      · rw [hresDB] at hresm
        simp only [Except.ok.injEq, Prod.mk.injEq] at hresm
        have hfs3b : fs3 = setFS fsB q { N with mode := s2m.mode } := by
          rw [hfs3, ← hresm.1, ← hresm.2]
        have hres3 : resolve fs3 maxLinkDepth p =
            .ok (q, { N with mode := s2m.mode }) := by
          rw [hfs3b]
          exact resolve_set_final
            (by simp only []; rw [hNreg]; intro hc; cases hc) hresDB
        refine ⟨resolve_ok_first hres3, Or.inr ?_⟩
        rw [contentsOf_eval hres3
          (by simp only []; rw [hNreg]; intro hc; cases hc)
          (by simp only []; rw [hNreg]; intro hc; cases hc)]
        simp only []
        rw [hNdata, hsb]
  · intro p e fs3 h
    rw [Copy_eval_dir hstat hdir] at h
    exact copyRest_err_path h

/-- C7 witness: the success half at a concrete regular file copied into an
existing directory. -/
theorem c7_witness :
    ("dir/a" : String) = joinPath "dir" (basePath "a") ∧
    (∃ n,
      lookupFS
        [("dir/a", ⟨3, .regular, "hi", 420⟩),
         ("dir/a", ⟨3, .regular, "hi", 438⟩),
         ("dir/a", ⟨3, .regular, "", 438⟩),
         ("a", ⟨1, .regular, "hi", 420⟩), ("dir", ⟨2, .dir, "", 493⟩)]
        "dir/a" = some n) ∧
    ((∃ n,
       lookupFS
         [("dir/a", ⟨3, .regular, "hi", 420⟩),
          ("dir/a", ⟨3, .regular, "hi", 438⟩),
          ("dir/a", ⟨3, .regular, "", 438⟩),
          ("a", ⟨1, .regular, "hi", 420⟩), ("dir", ⟨2, .dir, "", 493⟩)]
         "dir/a" = some n ∧ n.ftype = .symlink ∧ n.data = "a") ∨
     contentsOf
       [("dir/a", ⟨3, .regular, "hi", 420⟩),
        ("dir/a", ⟨3, .regular, "hi", 438⟩),
        ("dir/a", ⟨3, .regular, "", 438⟩),
        ("a", ⟨1, .regular, "hi", 420⟩), ("dir", ⟨2, .dir, "", 493⟩)]
       "dir/a" =
       sourceBytes
         [("a", ⟨1, .regular, "hi", 420⟩), ("dir", ⟨2, .dir, "", 493⟩)]
         "a") :=
  (c7_dir_redirect
      [("a", ⟨1, .regular, "hi", 420⟩), ("dir", ⟨2, .dir, "", 493⟩)]
      "a" "dir" true ⟨2, .dir, "", 493⟩ (by rfl) (by rfl)).1
    "dir/a"
    [("dir/a", ⟨3, .regular, "hi", 420⟩),
     ("dir/a", ⟨3, .regular, "hi", 438⟩),
     ("dir/a", ⟨3, .regular, "", 438⟩),
     ("a", ⟨1, .regular, "hi", 420⟩), ("dir", ⟨2, .dir, "", 493⟩)]
    (by decide)

/-- C9, counterexample: src is a symlink `"s" → "t"` and dst `"d"` is a
pre-existing regular file that is never the same file as src.  With
followSymlinks = false, `Copy` reaches `os.Symlink(src, dst)`, which fails
with EEXIST and leaves the filesystem unchanged — so the second of two
successive calls is the identical invocation and returns this error,
refuting "the second call overwrites the existing destination and does
not return an error". -/
theorem c9_counterexample :
    Copy [("s", ⟨1, .symlink, "t", 511⟩), ("t", ⟨2, .regular, "hello", 420⟩),
          ("d", ⟨3, .regular, "x", 420⟩)] "s" "d" false =
      .err "d" (.osErr (.existsErr "d"))
        [("s", ⟨1, .symlink, "t", 511⟩), ("t", ⟨2, .regular, "hello", 420⟩),
         ("d", ⟨3, .regular, "x", 420⟩)] ∧
    samefile [("s", ⟨1, .symlink, "t", 511⟩),
        ("t", ⟨2, .regular, "hello", 420⟩), ("d", ⟨3, .regular, "x", 420⟩)]
      "s" "d" = false :=
  ⟨by decide, by decide⟩

/-- C9 (amended): if a `Copy` call succeeds and src is not a symlink
whenever followSymlinks is false, then — with src unchanged — an immediate
second call with the same arguments succeeds, returns the same final path,
overwrites the destination, and leaves the final path with exactly the
same (followed) metadata and contents as after the first call. -/
theorem c9_idempotent (fs : FS) (src dst : String) (follow : Bool)
    (p : String) (fs1 : FS)
    (h1 : Copy fs src dst follow = .ok p fs1)
    (hnosym : follow = false →
      ∀ n, lstat fs src = .ok n → IsSymlink n = false) :
    ∃ fs4, Copy fs1 src dst follow = .ok p fs4 ∧
      stat fs4 p = stat fs1 p := by
  obtain ⟨hcase, fsB, tr, hcf, hcm⟩ := Copy_ok_inv h1
  obtain ⟨hsf, s, hls, hsp, hdstchk, hlod⟩ := CopyFile_ok_inv hcf
  rcases copyFileLinkOrData_ok_inv hlod with
    ⟨hf, hsym, _, _, _⟩ | ⟨hor, s2, st2, hro, hcd⟩
  · rw [hnosym hf s hls] at hsym
    cases hsym
  obtain ⟨q, rp, N, hresS2, hst2d, hst2p, hst2s, hlkN, hNreg, hNdata,
    hresDB, hsets, hnolinkq, hdisj⟩ := byte_success_facts hls hro hcd
  obtain ⟨Nino, Nft, Ndata, Nmode⟩ := N
  simp only [] at hNreg hNdata
  subst hNreg
  subst hNdata
  -- src does not sit at the write target
  have hsrcq : src ≠ q := by
    intro hc
    have hsl := lstat_ok_lookup hls
    rcases hdisj with ⟨nq, hresD, hnqr, _, _, hnql⟩ | ⟨_, hnone, _, _⟩
    · rw [← hc] at hnql
      rw [hsl] at hnql
      simp only [Option.some.injEq] at hnql
      have hsreg : s.ftype ≠ .symlink := by
        rw [hnql, hnqr]
        intro hcon
        cases hcon
      have hss : stat fs src = .ok s := stat_of_lookup_nolink hsl hsreg
      have hsp2 : stat fs p = .ok nq := stat_of_resolve_ok hresD
      have := samefile_ino_ne hss hsp2 hsf
      rw [hnql] at this
      exact this rfl
    · rw [← hc, hsl] at hnone
      cases hnone
  -- facts from the first call's CopyMode
  obtain ⟨sm, dm, hlsm, hldm, hmode⟩ := CopyMode_ok_inv hcm
  have hsm : sm = s := by
    have h1 := lstat_ok_lookup hlsm
    rw [hsets.lookup_ne hsrcq, lstat_ok_lookup hls] at h1
    simp only [Option.some.injEq] at h1
    exact h1.symm
  rcases hmode with ⟨hcond, _⟩ | ⟨hcondf, s2m, qq, nn, hstm, hresm, hfs1⟩
  · -- the both-symlink shortcut cannot fire here
    rw [hsm] at hcond
    rw [Bool.and_eq_true, Bool.and_eq_true] at hcond
    rcases hor with hf | hns
    · rw [hf] at hcond
      cases hcond.1.1
    · rw [hns] at hcond
      cases hcond.1.2
  rw [hresDB] at hresm
  simp only [Except.ok.injEq, Prod.mk.injEq] at hresm
  rw [← hresm.1, ← hresm.2] at hfs1
  -- the first call's final state, all updates at q
  have hNmns : (⟨Nino, .regular, st2.data, s2m.mode⟩ : Node).ftype ≠
      .symlink := by
    intro hc
    cases hc
  have hS1 : SetsAt q fs fs1 := by
    rw [hfs1]
    exact SetsAt.step _ hsets hNmns
  have hres1p : resolve fs1 maxLinkDepth p =
      .ok (q, ⟨Nino, .regular, st2.data, s2m.mode⟩) := by
    rw [hfs1]
    exact resolve_set_final hNmns hresDB
  -- transfer the followed source query of CopyMode down to the base state
  obtain ⟨π, hresBsrc⟩ := stat_ok_resolve hstm
  rcases hsets.resolve_back hnolinkq hresBsrc with ⟨hπq, hbase⟩ |
    ⟨hπq, hrest⟩
  swap
  · exfalso
    rcases hrest with ⟨hlqn, herr⟩ | ⟨nq2, hlq, hok⟩
    · rcases resolveSrcOnce_ok_inv hro with ⟨hnsym, hs2, hst2e⟩ |
        ⟨hsym2, hrl, hst⟩
      · have hsl := lstat_ok_lookup hls
        have hns : s.ftype ≠ .symlink := by
          intro hc
          rw [IsSymlink, hc] at hnsym
          cases hnsym
        have := maxLinkDepth_succ ▸ resolve_succ_nolink hsl hns
        rw [this] at herr
        cases herr
      · obtain ⟨hr2, hsymS⟩ := readlink_ok_inv hls hrl
        have hstep : resolve fs maxLinkDepth src = resolve fs 39 s2 := by
          rw [maxLinkDepth_succ, hr2]
          exact resolve_succ_link (lstat_ok_lookup hls) hsymS
        rw [hstep] at herr
        have h40 := resolve_notExist_mono herr
        rw [← maxLinkDepth_succ] at h40
        rw [hresS2] at h40
        cases h40
    · rcases hdisj with ⟨nq, hresD, hnqr, _, _, hnql⟩ | ⟨_, hnone, _, _⟩
      · rw [hnql] at hlq
        simp only [Option.some.injEq] at hlq
        have hss : stat fs src = .ok nq2 := stat_of_resolve_ok hok
        have hpp : stat fs p = .ok nq := stat_of_resolve_ok hresD
        have := samefile_ino_ne hss hpp hsf
        rw [hlq] at this
        exact this rfl
      · rw [hnone] at hlq
        cases hlq
  -- the resolved source endpoint also sits away from q
  have hkey : rp = π ∧ st2 = s2m := by
    rcases resolveSrcOnce_ok_inv hro with ⟨hnsym, hs2, hst2e⟩ |
      ⟨hsym2, hrl, hst⟩
    · rw [hs2] at hresS2
      rw [hresS2] at hbase
      simp only [Except.ok.injEq, Prod.mk.injEq] at hbase
      exact ⟨hbase.1, hbase.2⟩
    · obtain ⟨hr2, hsymS⟩ := readlink_ok_inv hls hrl
      have hstep : resolve fs maxLinkDepth src = resolve fs 39 s2 := by
        rw [maxLinkDepth_succ, hr2]
        exact resolve_succ_link (lstat_ok_lookup hls) hsymS
      rw [hstep] at hbase
      have h40 := resolve_ok_mono hbase
      rw [← maxLinkDepth_succ] at h40
      rw [hresS2] at h40
      simp only [Except.ok.injEq, Prod.mk.injEq] at h40
      exact ⟨h40.1, h40.2⟩
  have hrpq : rp ≠ q := by
    rw [hkey.1]
    exact hπq
  have hst2m : st2 = s2m := hkey.2
  -- the second call redirects (or not) exactly as the first did
  have hroute : Copy fs1 src dst follow = copyRest fs1 src p follow := by
    rcases hcase with ⟨d, hstD, hdir, hpj⟩ | ⟨d, hstD, hnd, hpd⟩ |
      ⟨e, hstD, hne, hpd⟩
    · obtain ⟨dd, hresDdir⟩ := stat_ok_resolve hstD
      have hddq : dd ≠ q := by
        intro hc
        have hdl := (resolve_ok_lookup hresDdir).1
        rcases hdisj with ⟨nq, _, hnqr, _, _, hnql⟩ | ⟨_, hnone, _, _⟩
        · rw [hc, hnql] at hdl
          simp only [Option.some.injEq] at hdl
          rw [← hdl] at hdir
          rw [hdir] at hnqr
          cases hnqr
        · rw [hc, hnone] at hdl
          cases hdl
      have := hS1.resolve_forward hnolinkq hresDdir hddq
      rw [Copy_eval_dir (stat_of_resolve_ok this) hdir, ← hpj]
    · rw [hpd] at hres1p
      have hst1 : stat fs1 dst =
          .ok ⟨Nino, .regular, st2.data, s2m.mode⟩ :=
        stat_of_resolve_ok hres1p
      rw [Copy_eval_nondir hst1 (by intro hc; cases hc), hpd]
    · rw [hpd] at hres1p
      have hst1 : stat fs1 dst =
          .ok ⟨Nino, .regular, st2.data, s2m.mode⟩ :=
        stat_of_resolve_ok hres1p
      rw [Copy_eval_nondir hst1 (by intro hc; cases hc), hpd]
  have hres1p2 : resolve fs1 maxLinkDepth p =
      .ok (q, ⟨Nino, .regular, st2.data, s2m.mode⟩) := by
    rcases hcase with ⟨_, _, _, hpj⟩ | ⟨_, _, _, hpd⟩ | ⟨_, _, _, hpd⟩
    · exact hres1p
    · rw [hpd]
      rw [hpd] at hres1p
      exact hres1p
    · rw [hpd]
      rw [hpd] at hres1p
      exact hres1p
  -- second call: CopyFile takes the byte path again
  have hstat1src : stat fs1 src = .ok s2m :=
    stat_of_resolve_ok (hS1.resolve_forward hnolinkq hbase hπq)
  have hstat1p : stat fs1 p = .ok ⟨Nino, .regular, st2.data, s2m.mode⟩ :=
    stat_of_resolve_ok hres1p2
  have hino : s2m.ino ≠ Nino := by
    rcases hdisj with ⟨nq, hresD, hnqr, hinoN, _, hnql⟩ | ⟨_, _, hinoN, _⟩
    · simp only [] at hinoN
      rw [hinoN]
      exact samefile_ino_ne (stat_of_resolve_ok hbase)
        (stat_of_resolve_ok hresD) hsf
    · simp only [] at hinoN
      rw [hinoN]
      have := lookup_ino_lt_fresh (resolve_ok_lookup hbase).1
      omega
  have hsf1 : samefile fs1 src p = false :=
    samefile_false_of_ino_ne hstat1src hstat1p hino
  have hls1 : lstat fs1 src = .ok s :=
    lstat_of_lookup (by rw [hS1.lookup_ne hsrcq]; exact lstat_ok_lookup hls)
  have hcond : (!follow && IsSymlink s) = false := by
    rcases hor with hf | hns
    · rw [hf]
      rfl
    · rw [hns, Bool.and_false]
  have hcf2route : CopyFile fs1 src p follow =
      copyFileLinkOrData fs1 src p follow s :=
    (CopyFile_step hsf1 hls1 hsp).1 _ hstat1p (by rw [specialfile]; rfl)
  have hres1s2 : resolve fs1 maxLinkDepth s2 = .ok (rp, st2) :=
    hS1.resolve_forward hnolinkq hresS2 hrpq
  have hro1 : resolveSrcOnce fs1 src s = .ok (s2, st2) := by
    rcases resolveSrcOnce_ok_inv hro with ⟨hnsym, hs2, hst2e⟩ |
      ⟨hsym2, hrl, hst⟩
    · rw [hs2, hst2e]
      exact resolveSrcOnce_eval_plain hnsym
    · obtain ⟨hr2, hsymS⟩ := readlink_ok_inv hls hrl
      refine resolveSrcOnce_eval_link hsym2 ?_ (stat_of_resolve_ok hres1s2)
      rw [hr2]
      exact readlinkOp_eval (lstat_ok_lookup hls1) hsymS
  have hopen1 : openRead fs1 s2 = .ok (rp, st2) :=
    openRead_eval hres1s2 hst2p
  have hcreate1 : createOp fs1 p =
      .ok (q, setFS fs1 q ⟨Nino, .regular, "", s2m.mode⟩) :=
    createOp_eval_trunc hres1p2 rfl
  have hlkT : lookupFS (setFS fs1 q ⟨Nino, .regular, "", s2m.mode⟩) rp =
      some st2 := by
    rw [lookup_set_ne _ _ (fun hc => hrpq hc.symm), hS1.lookup_ne hrpq]
    exact (resolve_ok_lookup hresS2).1
  have hcd2 : copyData fs1 s2 st2.size p =
      (none,
       setFS (setFS fs1 q ⟨Nino, .regular, "", s2m.mode⟩) q
         ⟨Nino, .regular, st2.data, s2m.mode⟩,
       [.readBytes s2 st2.data.length, .wroteBytes q]) := by
    have := copyData_eval hopen1 hcreate1 hlkT hst2d
    rw [this]
    rw [lookup_set_self]
    rfl
  have hcf2 : CopyFile fs1 src p follow =
      (none,
       setFS (setFS fs1 q ⟨Nino, .regular, "", s2m.mode⟩) q
         ⟨Nino, .regular, st2.data, s2m.mode⟩,
       [.readBytes s2 st2.data.length, .wroteBytes q]) := by
    rw [hcf2route, copyFileLinkOrData_eval_byte hcond hro1, hcd2]
  -- second call: CopyMode chmods the same target with the same mode
  have hSC : SetsAt q fs
      (setFS (setFS fs1 q ⟨Nino, .regular, "", s2m.mode⟩) q
        ⟨Nino, .regular, st2.data, s2m.mode⟩) :=
    SetsAt.step _ (SetsAt.step _ hS1 (by intro hc; cases hc))
      (by intro hc; cases hc)
  have hlsC : lstat
      (setFS (setFS fs1 q ⟨Nino, .regular, "", s2m.mode⟩) q
        ⟨Nino, .regular, st2.data, s2m.mode⟩) src = .ok s :=
    lstat_of_lookup (by
      rw [hSC.lookup_ne hsrcq]
      exact lstat_ok_lookup hls)
  have hresC : resolve
      (setFS (setFS fs1 q ⟨Nino, .regular, "", s2m.mode⟩) q
        ⟨Nino, .regular, st2.data, s2m.mode⟩) maxLinkDepth p =
      .ok (q, ⟨Nino, .regular, st2.data, s2m.mode⟩) :=
    resolve_set_final (by intro hc; cases hc)
      (resolve_set_final (by intro hc; cases hc) hres1p2)
  have hldC : ∃ dn, lstat
      (setFS (setFS fs1 q ⟨Nino, .regular, "", s2m.mode⟩) q
        ⟨Nino, .regular, st2.data, s2m.mode⟩) p = .ok dn := by
    obtain ⟨m, hm⟩ := resolve_ok_first hresC
    exact ⟨m, lstat_of_lookup hm⟩
  obtain ⟨dn, hldC⟩ := hldC
  have hstC : stat
      (setFS (setFS fs1 q ⟨Nino, .regular, "", s2m.mode⟩) q
        ⟨Nino, .regular, st2.data, s2m.mode⟩) src = .ok s2m :=
    stat_of_resolve_ok (hSC.resolve_forward hnolinkq hbase hπq)
  have hcondC : (!follow && IsSymlink s && IsSymlink dn) = false := by
    rw [hcond, Bool.false_and]
  have hcm2 : CopyMode
      (setFS (setFS fs1 q ⟨Nino, .regular, "", s2m.mode⟩) q
        ⟨Nino, .regular, st2.data, s2m.mode⟩) src p follow =
      .ok (setFS
        (setFS (setFS fs1 q ⟨Nino, .regular, "", s2m.mode⟩) q
          ⟨Nino, .regular, st2.data, s2m.mode⟩) q
        ⟨Nino, .regular, st2.data, s2m.mode⟩) :=
    CopyMode_eval_chmod hlsC hldC hcondC hstC hresC
  refine ⟨setFS
      (setFS (setFS fs1 q ⟨Nino, .regular, "", s2m.mode⟩) q
        ⟨Nino, .regular, st2.data, s2m.mode⟩) q
      ⟨Nino, .regular, st2.data, s2m.mode⟩, ?_, ?_⟩
  · rw [hroute, copyRest_eval hcf2 hcm2]
  · have hresF : resolve
        (setFS (setFS
          (setFS fs1 q ⟨Nino, .regular, "", s2m.mode⟩) q
          ⟨Nino, .regular, st2.data, s2m.mode⟩) q
          ⟨Nino, .regular, st2.data, s2m.mode⟩) maxLinkDepth p =
        .ok (q, ⟨Nino, .regular, st2.data, s2m.mode⟩) :=
      resolve_set_final (by intro hc; cases hc) hresC
    rw [stat_of_resolve_ok hresF, stat_of_resolve_ok hres1p2]

/-- C9 witness: the amended theorem applied to a concrete successful first
copy of a regular file to a fresh destination. -/
theorem c9_witness :
    ∃ fs4,
      Copy [("b", ⟨2, .regular, "hi", 420⟩),
            ("b", ⟨2, .regular, "hi", 438⟩),
            ("b", ⟨2, .regular, "", 438⟩),
            ("a", ⟨1, .regular, "hi", 420⟩)] "a" "b" true = .ok "b" fs4 ∧
      stat fs4 "b" =
        stat [("b", ⟨2, .regular, "hi", 420⟩),
              ("b", ⟨2, .regular, "hi", 438⟩),
              ("b", ⟨2, .regular, "", 438⟩),
              ("a", ⟨1, .regular, "hi", 420⟩)] "b" :=
  c9_idempotent [("a", ⟨1, .regular, "hi", 420⟩)] "a" "b" true "b"
    [("b", ⟨2, .regular, "hi", 420⟩), ("b", ⟨2, .regular, "hi", 438⟩),
     ("b", ⟨2, .regular, "", 438⟩), ("a", ⟨1, .regular, "hi", 420⟩)]
    (by decide) (fun hc => by cases hc)

/-- C10: there is an input on which `CopyMode` neither succeeds nor
returns an error value: the followed query of src fails, its error is
discarded, and the `Mode()` access dereferences the nil metadata
(modelled as the `panicked` outcome). -/
theorem c10_copymode_not_total :
    ∃ (fs : FS) (src dst : String) (follow : Bool),
      (∀ g : FS, CopyMode fs src dst follow ≠ .ok g) ∧
      (∀ (e : Err) (g : FS), CopyMode fs src dst follow ≠ .err e g) := by
  refine ⟨[("dead", ⟨1, .symlink, "void", 511⟩),
           ("target", ⟨2, .regular, "y", 420⟩)], "dead", "target", false,
          ?_, ?_⟩
  · intro g h
    rw [show CopyMode [("dead", ⟨1, .symlink, "void", 511⟩),
          ("target", ⟨2, .regular, "y", 420⟩)] "dead" "target" false =
        .panicked from by decide] at h
    cases h
  · intro e g h
    rw [show CopyMode [("dead", ⟨1, .symlink, "void", 511⟩),
          ("target", ⟨2, .regular, "y", 420⟩)] "dead" "target" false =
        .panicked from by decide] at h
    cases h

end Shutil
